import Mathlib

/-!
PowerDNS zone resource handler (`powerdns/resource_powerdns_zone.go`).

A shallow embedding of the six lifecycle handlers of the zone resource
(`resourcePDNSZoneCreate`, `Read`, `Update`, `Delete`, `Exists`, `Import`) together with
the parts of their environment they depend on:

* Go `error` values (`GoError`),
* `encoding/json`'s `Unmarshal` into a `map[string]string` (scanner and decoder), with the
  grammar of the texts it accepts,
* the `schema.ResourceData` state container of the plugin SDK,
* the API client, taken as a parameter (`Client`), with every call recorded in a trace.

Go strings are embedded as Lean strings, i.e. as valid UTF-8 text.
-/

namespace PowerDNS

/-! ## Go errors -/

/-- A non-nil Go `error`, identified by its dynamic type and the data its `Error()` text is
built from. -/
inductive GoError where
  /-- `*json.SyntaxError`; `msg` is its message (the byte offset is not modelled). -/
  | jsonSyntaxError (msg : String)
  /-- `*json.UnmarshalTypeError` with its `Value` and the name of its `Type`. -/
  | jsonUnmarshalTypeError (value : String) (type : String)
  /-- The value of `errors.New msg` or of `fmt.Errorf` without a wrapping verb. -/
  | errorString (msg : String)
  /-- An error of any other dynamic type, as an API client may return. -/
  | other (type : String) (msg : String)
deriving DecidableEq

/-- The `Error()` method. -/
def GoError.Error : GoError → String
  | .jsonSyntaxError msg => msg
  | .jsonUnmarshalTypeError value type =>
      "json: cannot unmarshal " ++ value ++ " into Go value of type " ++ type
  | .errorString msg => msg
  | .other _ msg => msg

/-- An error that `json.Unmarshal` reports: a syntax error or a type mismatch. -/
def GoError.isParseError : GoError → Bool
  | .jsonSyntaxError _ => true
  | .jsonUnmarshalTypeError _ _ => true
  | _ => false

/-! ## `encoding/json`: the scanner (`scanner.go`) -/

namespace Json

/-- The scanner's current `step` function, one constructor per Go state function. -/
inductive Step where
  | stateBeginValueOrEmpty | stateBeginValue | stateBeginStringOrEmpty | stateBeginString
  | stateEndValue | stateEndTop
  | stateInString | stateInStringEsc
  | stateInStringEscU | stateInStringEscU1 | stateInStringEscU12 | stateInStringEscU123
  | stateNeg | state1 | state0 | stateDot | stateDot0 | stateE | stateESign | stateE0
  | stateT | stateTr | stateTru
  | stateF | stateFa | stateFal | stateFals
  | stateN | stateNu | stateNul
  | stateError
deriving DecidableEq

/-- The values of the `parseState` stack. -/
inductive ParseState where
  | parseObjectKey | parseObjectValue | parseArrayValue
deriving DecidableEq

/-- The opcodes returned by the step functions. -/
inductive Op where
  | scanContinue | scanBeginLiteral | scanBeginObject | scanObjectKey | scanObjectValue
  | scanEndObject | scanBeginArray | scanArrayValue | scanEndArray | scanSkipSpace
  | scanEnd | scanError
deriving DecidableEq

/-- The `scanner` struct. The `parseState` slice is kept with its last element (the top of
the stack) at the head of the list. -/
structure Scanner where
  step : Step
  endTop : Bool
  parseState : List ParseState
  err : Option GoError
deriving DecidableEq

def maxNestingDepth : Nat := 10000

/-- The scanner after `reset`. -/
def Scanner.reset : Scanner :=
  { step := .stateBeginValue, endTop := false, parseState := [], err := none }

/-- The first byte of the UTF-8 encoding of `c`: the byte the Go scanner is looking at when
it meets `c` outside a string literal. -/
def leadByte (c : Char) : Nat :=
  if c.toNat < 0x80 then c.toNat
  else if c.toNat < 0x800 then 0xc0 + c.toNat / 0x40
  else if c.toNat < 0x10000 then 0xe0 + c.toNat / 0x1000
  else 0xf0 + c.toNat / 0x40000

/-- The digit `lowerhex[n]`. -/
def lowerhex (n : Nat) : Char := "0123456789abcdef".toList.getD n '0'

/-- The function `strconv.IsPrint` on a rune below `0x100`. -/
def isPrintLatin1 (b : Nat) : Bool :=
  (0x20 ≤ b && b ≤ 0x7e) || (0xa1 ≤ b && b ≤ 0xff && b != 0xad)

/-- What `strconv.Quote(string(b))` puts between its double quotes for a byte `b` other than
the double quote. -/
def quotedByte (b : Nat) : String :=
  if b = 0x5c then "\\\\"
  else if isPrintLatin1 b then String.singleton (Char.ofNat b)
  else if b = 7 then "\\a"
  else if b = 8 then "\\b"
  else if b = 12 then "\\f"
  else if b = 10 then "\\n"
  else if b = 13 then "\\r"
  else if b = 9 then "\\t"
  else if b = 11 then "\\v"
  else if b < 0x20 || b = 0x7f then
    "\\x" ++ String.mk [lowerhex (b / 16), lowerhex (b % 16)]
  else "\\u00" ++ String.mk [lowerhex (b / 16), lowerhex (b % 16)]

/-- The function `quoteChar`, on the byte the scanner is looking at. -/
def quoteChar (c : Char) : String :=
  if leadByte c = 0x27 then "'\\''"
  else if leadByte c = 0x22 then "'\"'"
  else "'" ++ quotedByte (leadByte c) ++ "'"

/-- Method `error`: records a syntax error and switches to `stateError`. -/
def Scanner.error (s : Scanner) (c : Char) (context : String) : Scanner × Op :=
  ({ s with step := .stateError,
            err := some (.jsonSyntaxError
              ("invalid character " ++ quoteChar c ++ " " ++ context)) }, .scanError)

/-- Method `pushParseState`; the caller has already stored the next step in `s`. -/
def Scanner.pushParseState (s : Scanner) (c : Char) (newParseState : ParseState)
    (successState : Op) : Scanner × Op :=
  let s1 := { s with parseState := newParseState :: s.parseState }
  if s1.parseState.length ≤ maxNestingDepth then (s1, successState)
  else s1.error c "exceeded max depth"

/-- Method `popParseState`. -/
def Scanner.popParseState (s : Scanner) : Scanner :=
  let rest := s.parseState.tail
  if rest.length = 0 then { s with parseState := rest, step := .stateEndTop, endTop := true }
  else { s with parseState := rest, step := .stateEndValue }

def isSpace (c : Char) : Bool :=
  c ≤ ' ' && (c == ' ' || c == '\t' || c == '\r' || c == '\n')

def isDigit (c : Char) : Bool := '0' ≤ c && c ≤ '9'

def isHex (c : Char) : Bool :=
  ('0' ≤ c && c ≤ '9') || ('a' ≤ c && c ≤ 'f') || ('A' ≤ c && c ≤ 'F')

def stateEndTop (s : Scanner) (c : Char) : Scanner × Op :=
  if !isSpace c then ((s.error c "after top-level value").1, .scanEnd)
  else (s, .scanEnd)

def stateEndValue (s : Scanner) (c : Char) : Scanner × Op :=
  match s.parseState with
  | [] => stateEndTop { s with step := .stateEndTop, endTop := true } c
  | ps :: rest =>
    if isSpace c then ({ s with step := .stateEndValue }, .scanSkipSpace)
    else
      match ps with
      | .parseObjectKey =>
        if c == ':' then
          ({ s with parseState := .parseObjectValue :: rest, step := .stateBeginValue },
            .scanObjectKey)
        else s.error c "after object key"
      | .parseObjectValue =>
        if c == ',' then
          ({ s with parseState := .parseObjectKey :: rest, step := .stateBeginString },
            .scanObjectValue)
        else if c == '}' then (s.popParseState, .scanEndObject)
        else s.error c "after object key:value pair"
      | .parseArrayValue =>
        if c == ',' then ({ s with step := .stateBeginValue }, .scanArrayValue)
        else if c == ']' then (s.popParseState, .scanEndArray)
        else s.error c "after array element"

def stateBeginValue (s : Scanner) (c : Char) : Scanner × Op :=
  if isSpace c then (s, .scanSkipSpace)
  else if c == '{' then
    Scanner.pushParseState { s with step := .stateBeginStringOrEmpty } c .parseObjectKey
      .scanBeginObject
  else if c == '[' then
    Scanner.pushParseState { s with step := .stateBeginValueOrEmpty } c .parseArrayValue
      .scanBeginArray
  else if c == '"' then ({ s with step := .stateInString }, .scanBeginLiteral)
  else if c == '-' then ({ s with step := .stateNeg }, .scanBeginLiteral)
  else if c == '0' then ({ s with step := .state0 }, .scanBeginLiteral)
  else if c == 't' then ({ s with step := .stateT }, .scanBeginLiteral)
  else if c == 'f' then ({ s with step := .stateF }, .scanBeginLiteral)
  else if c == 'n' then ({ s with step := .stateN }, .scanBeginLiteral)
  else if '1' ≤ c && c ≤ '9' then ({ s with step := .state1 }, .scanBeginLiteral)
  else s.error c "looking for beginning of value"

def stateBeginValueOrEmpty (s : Scanner) (c : Char) : Scanner × Op :=
  if isSpace c then (s, .scanSkipSpace)
  else if c == ']' then stateEndValue s c
  else stateBeginValue s c

def stateBeginString (s : Scanner) (c : Char) : Scanner × Op :=
  if isSpace c then (s, .scanSkipSpace)
  else if c == '"' then ({ s with step := .stateInString }, .scanBeginLiteral)
  else s.error c "looking for beginning of object key string"

def stateBeginStringOrEmpty (s : Scanner) (c : Char) : Scanner × Op :=
  if isSpace c then (s, .scanSkipSpace)
  else if c == '}' then
    stateEndValue { s with parseState := .parseObjectValue :: s.parseState.tail } c
  else stateBeginString s c

def stateInString (s : Scanner) (c : Char) : Scanner × Op :=
  if c == '"' then ({ s with step := .stateEndValue }, .scanContinue)
  else if c == '\\' then ({ s with step := .stateInStringEsc }, .scanContinue)
  else if c.toNat < 0x20 then s.error c "in string literal"
  else (s, .scanContinue)

def stateInStringEsc (s : Scanner) (c : Char) : Scanner × Op :=
  if c == 'b' || c == 'f' || c == 'n' || c == 'r' || c == 't' || c == '\\' || c == '/'
      || c == '"' then
    ({ s with step := .stateInString }, .scanContinue)
  else if c == 'u' then ({ s with step := .stateInStringEscU }, .scanContinue)
  else s.error c "in string escape code"

/-- The four states after a backslash-u share this body; `next` is the following state. -/
def stateInStringEscHex (next : Step) (s : Scanner) (c : Char) : Scanner × Op :=
  if isHex c then ({ s with step := next }, .scanContinue)
  else s.error c "in \\u hexadecimal character escape"

def stateNeg (s : Scanner) (c : Char) : Scanner × Op :=
  if c == '0' then ({ s with step := .state0 }, .scanContinue)
  else if '1' ≤ c && c ≤ '9' then ({ s with step := .state1 }, .scanContinue)
  else s.error c "in numeric literal"

def state0 (s : Scanner) (c : Char) : Scanner × Op :=
  if c == '.' then ({ s with step := .stateDot }, .scanContinue)
  else if c == 'e' || c == 'E' then ({ s with step := .stateE }, .scanContinue)
  else stateEndValue s c

def state1 (s : Scanner) (c : Char) : Scanner × Op :=
  if isDigit c then ({ s with step := .state1 }, .scanContinue)
  else state0 s c

def stateDot (s : Scanner) (c : Char) : Scanner × Op :=
  if isDigit c then ({ s with step := .stateDot0 }, .scanContinue)
  else s.error c "after decimal point in numeric literal"

def stateDot0 (s : Scanner) (c : Char) : Scanner × Op :=
  if isDigit c then (s, .scanContinue)
  else if c == 'e' || c == 'E' then ({ s with step := .stateE }, .scanContinue)
  else stateEndValue s c

def stateESign (s : Scanner) (c : Char) : Scanner × Op :=
  if isDigit c then ({ s with step := .stateE0 }, .scanContinue)
  else s.error c "in exponent of numeric literal"

def stateE (s : Scanner) (c : Char) : Scanner × Op :=
  if c == '+' || c == '-' then ({ s with step := .stateESign }, .scanContinue)
  else stateESign s c

def stateE0 (s : Scanner) (c : Char) : Scanner × Op :=
  if isDigit c then (s, .scanContinue)
  else stateEndValue s c

/-- The states inside `true`, `false` and `null`: `want` is the only byte accepted and
`next` the state after it. -/
def stateLiteral (want : Char) (next : Step) (context : String) (s : Scanner) (c : Char) :
    Scanner × Op :=
  if c == want then ({ s with step := next }, .scanContinue)
  else s.error c context

/-- One call `s.step(s, c)`. -/
def Scanner.run (s : Scanner) (c : Char) : Scanner × Op :=
  match s.step with
  | .stateBeginValueOrEmpty => stateBeginValueOrEmpty s c
  | .stateBeginValue => stateBeginValue s c
  | .stateBeginStringOrEmpty => stateBeginStringOrEmpty s c
  | .stateBeginString => stateBeginString s c
  | .stateEndValue => stateEndValue s c
  | .stateEndTop => stateEndTop s c
  | .stateInString => stateInString s c
  | .stateInStringEsc => stateInStringEsc s c
  | .stateInStringEscU => stateInStringEscHex .stateInStringEscU1 s c
  | .stateInStringEscU1 => stateInStringEscHex .stateInStringEscU12 s c
  | .stateInStringEscU12 => stateInStringEscHex .stateInStringEscU123 s c
  | .stateInStringEscU123 => stateInStringEscHex .stateInString s c
  | .stateNeg => stateNeg s c
  | .state1 => state1 s c
  | .state0 => state0 s c
  | .stateDot => stateDot s c
  | .stateDot0 => stateDot0 s c
  | .stateE => stateE s c
  | .stateESign => stateESign s c
  | .stateE0 => stateE0 s c
  | .stateT => stateLiteral 'r' .stateTr "in literal true (expecting 'r')" s c
  | .stateTr => stateLiteral 'u' .stateTru "in literal true (expecting 'u')" s c
  | .stateTru => stateLiteral 'e' .stateEndValue "in literal true (expecting 'e')" s c
  | .stateF => stateLiteral 'a' .stateFa "in literal false (expecting 'a')" s c
  | .stateFa => stateLiteral 'l' .stateFal "in literal false (expecting 'l')" s c
  | .stateFal => stateLiteral 's' .stateFals "in literal false (expecting 's')" s c
  | .stateFals => stateLiteral 'e' .stateEndValue "in literal false (expecting 'e')" s c
  | .stateN => stateLiteral 'u' .stateNu "in literal null (expecting 'u')" s c
  | .stateNu => stateLiteral 'l' .stateNul "in literal null (expecting 'l')" s c
  | .stateNul => stateLiteral 'l' .stateEndValue "in literal null (expecting 'l')" s c
  | .stateError => (s, .scanError)

/-- Method `eof`: the error, if any, with which the input ends. -/
def Scanner.eof (s : Scanner) : Option GoError :=
  match s.err with
  | some e => some e
  | none =>
    if s.endTop then none
    else
      let s1 := (s.run ' ').1
      if s1.endTop then none
      else
        match s1.err with
        | some e => some e
        | none => some (.jsonSyntaxError "unexpected end of JSON input")

/-- The loop of `checkValid`, from scanner state `s` on. -/
def checkValidFrom (s : Scanner) : List Char → Option GoError
  | [] => s.eof
  | c :: cs =>
    match s.run c with
    | (s1, .scanError) => s1.err
    | (s1, _) => checkValidFrom s1 cs

/-- The function `checkValid`: `none` when `data` is one JSON value. -/
def checkValid (data : List Char) : Option GoError := checkValidFrom Scanner.reset data

/-! ## `encoding/json`: the decoder (`decode.go`) for a `map[string]string` destination -/

/-- What the decoder reads off the scanner: the structural opcodes, with the bytes of each
literal (from `scanBeginLiteral` through the following `scanContinue` bytes) grouped. -/
inductive Token where
  | beginObject | endObject | beginArray | endArray
  | objectKey | objectValue | arrayValue
  | literal (item : List Char)
deriving DecidableEq

/-- The literal read so far, if any, as a token. -/
def flush : Option (List Char) → List Token
  | none => []
  | some item => [.literal item]

/-- The scanner run over the input a second time, as `decodeState` does, from state `s` with
`lit` the literal being read. -/
def tokensFrom (s : Scanner) (lit : Option (List Char)) : List Char → List Token
  | [] => flush lit
  | c :: cs =>
    match s.run c with
    | (s1, .scanBeginLiteral) => flush lit ++ tokensFrom s1 (some [c]) cs
    | (s1, .scanContinue) => tokensFrom s1 (lit.map (fun item => item ++ [c])) cs
    | (s1, .scanSkipSpace) => flush lit ++ tokensFrom s1 none cs
    | (s1, .scanBeginObject) => flush lit ++ .beginObject :: tokensFrom s1 none cs
    | (s1, .scanEndObject) => flush lit ++ .endObject :: tokensFrom s1 none cs
    | (s1, .scanBeginArray) => flush lit ++ .beginArray :: tokensFrom s1 none cs
    | (s1, .scanEndArray) => flush lit ++ .endArray :: tokensFrom s1 none cs
    | (s1, .scanObjectKey) => flush lit ++ .objectKey :: tokensFrom s1 none cs
    | (s1, .scanObjectValue) => flush lit ++ .objectValue :: tokensFrom s1 none cs
    | (s1, .scanArrayValue) => flush lit ++ .arrayValue :: tokensFrom s1 none cs
    | (_, .scanEnd) => flush lit
    | (_, .scanError) => flush lit

def tokens (data : List Char) : List Token := tokensFrom Scanner.reset none data

/-- The value of one hexadecimal digit, as in `getu4`. -/
def hexVal (c : Char) : Nat :=
  if '0' ≤ c && c ≤ '9' then c.toNat - '0'.toNat
  else if 'a' ≤ c && c ≤ 'f' then c.toNat - 'a'.toNat + 10
  else c.toNat - 'A'.toNat + 10

/-- The rune of the four hexadecimal digits of a backslash-u escape (`getu4`). -/
def getu4 (a b c d : Char) : Nat :=
  ((hexVal a * 16 + hexVal b) * 16 + hexVal c) * 16 + hexVal d

/-- The function `utf16.IsSurrogate`. -/
def isSurrogate (r : Nat) : Bool := 0xd800 ≤ r && r < 0xe000

/-- The rune `unicode.ReplacementChar`. -/
def replacementChar : Char := Char.ofNat 0xfffd

/-- The function `utf16.DecodeRune`. -/
def decodeRune (r1 r2 : Nat) : Char :=
  if 0xd800 ≤ r1 && r1 < 0xdc00 && 0xdc00 ≤ r2 && r2 < 0xe000 then
    Char.ofNat ((r1 - 0xd800) * 1024 + (r2 - 0xdc00) + 0x10000)
  else replacementChar

/-- The byte a one-letter escape stands for. -/
def unescape (c : Char) : Char :=
  if c == 'b' then Char.ofNat 8
  else if c == 'f' then Char.ofNat 12
  else if c == 'n' then '\n'
  else if c == 'r' then '\r'
  else if c == 't' then '\t'
  else c

/-- The loop of `unquoteBytes` over the bytes between the quotes. The scanner has accepted
the literal, so every escape is well formed and the `ok` result of Go is always true. -/
def unquoteBody : List Char → List Char
  | [] => []
  | '\\' :: 'u' :: a :: b :: c :: d :: rest =>
    let rr := getu4 a b c d
    let tl := unquoteBody rest
    if isSurrogate rr then
      match rest with
      | '\\' :: 'u' :: e :: f :: g :: h :: rest2 =>
        let dec := decodeRune rr (getu4 e f g h)
        if dec ≠ replacementChar then dec :: unquoteBody rest2
        else replacementChar :: tl
      | _ => replacementChar :: tl
    else Char.ofNat rr :: tl
  | '\\' :: c :: rest => unescape c :: unquoteBody rest
  | c :: rest => c :: unquoteBody rest

/-- The function `unquote` on a string literal, quotes included. -/
def unquote (item : List Char) : String := String.mk (unquoteBody item.tail.dropLast)

/-- A Go `map[string]string`, as the list of its entries (one per key, in no particular
order). The nil map and the empty map are both the empty list. -/
abbrev GoMap := List (String × String)

/-- The statement `m[k] = v`. -/
def GoMap.set (m : GoMap) (k v : String) : GoMap :=
  (k, v) :: m.filter (fun kv => kv.1 ≠ k)

/-- The expression `v, ok := m[k]`: `none` when `ok` is false. -/
def GoMap.get (m : GoMap) (k : String) : Option String := List.lookup k m

/-- Method `saveError`: only the first error is kept. -/
def saveError (saved : Option GoError) (e : GoError) : Option GoError :=
  match saved with
  | some e0 => some e0
  | none => some e

/-- The `Value` that `literalStore` reports when a literal does not fit its destination. -/
def literalKind (item : List Char) : String :=
  match item.head? with
  | some 't' => "bool"
  | some 'f' => "bool"
  | some '"' => "string"
  | _ => "number"

/-- Method `literalStore` for a destination of kind `string` holding the zero value: the
string stored and the saved error. A `null` leaves the destination as it is. -/
def literalStoreString (item : List Char) (saved : Option GoError) : String × Option GoError :=
  match item.head? with
  | some 'n' => ("", saved)
  | some '"' => (unquote item, saved)
  | _ => ("", saveError saved (.jsonUnmarshalTypeError (literalKind item) "string"))

/-- Method `object` for the destination map, after the opening brace. `key` is the key whose
value is awaited and `depth` the nesting depth inside a value being skipped (`skip`); a value
that is an object or an array does not fit a string and is skipped. -/
def object (m : GoMap) (saved : Option GoError) (key : Option String) (depth : Nat) :
    List Token → GoMap × Option GoError
  | [] => (m, saved)
  | t :: rest =>
    match depth, t, key with
    | d + 1, .beginObject, _ => object m saved key (d + 2) rest
    | d + 1, .beginArray, _ => object m saved key (d + 2) rest
    | d + 1, .endObject, _ => object m saved key d rest
    | d + 1, .endArray, _ => object m saved key d rest
    | d + 1, _, _ => object m saved key (d + 1) rest
    | 0, .literal item, none => object m saved (some (unquote item)) 0 rest
    | 0, .literal item, some k =>
      let r := literalStoreString item saved
      object (m.set k r.1) r.2 none 0 rest
    | 0, .beginObject, some k =>
      object (m.set k "") (saveError saved (.jsonUnmarshalTypeError "object" "string")) none 1
        rest
    | 0, .beginArray, some k =>
      object (m.set k "") (saveError saved (.jsonUnmarshalTypeError "array" "string")) none 1
        rest
    | 0, .endObject, _ => (m, saved)
    | 0, _, _ => object m saved key 0 rest

/-- Method `unmarshal` with a pointer to a nil `map[string]string`: the map afterwards and
the saved error. A top-level `null` sets the map to nil and is no error; a top-level string,
number, boolean or array is a type mismatch. -/
def unmarshal : List Token → GoMap × Option GoError
  | .beginObject :: rest => object [] none none 0 rest
  | .beginArray :: _ => ([], some (.jsonUnmarshalTypeError "array" "map[string]string"))
  | .literal item :: _ =>
    match item.head? with
    | some 'n' => ([], none)
    | _ => ([], some (.jsonUnmarshalTypeError (literalKind item) "map[string]string"))
  | _ => ([], none)

end Json

/-- The call `json.Unmarshal([]byte(data), &m)` with `m` a nil `map[string]string`: the error,
or the map when the error is nil. -/
def jsonUnmarshal (data : String) : Except GoError Json.GoMap :=
  match Json.checkValid data.toList with
  | some e => .error e
  | none =>
    match Json.unmarshal (Json.tokens data.toList) with
    | (_, some e) => .error e
    | (m, none) => .ok m

/-! ## The API client (`client.go`), taken as a parameter -/

/-- Modelled from the spec: the `ZoneInfo` request and response body declared in `client.go`,
with the four fields the specification gives it. -/
structure ZoneInfo where
  ID : String
  Name : String
  Kind : String
  Nameservers : List String
deriving DecidableEq

/-- Modelled from the spec: the `Record` type declared in `client.go`, of which the handler
reads the `Content` field only. -/
structure Record where
  Content : String
deriving DecidableEq

/-- The methods of `*Client` the handlers call. `σ` is the state of the remote system; every
method takes the state before the call and gives the state after it. A method returning
`(T, error)` is an `Except`, a method returning `error` an `Option`. -/
structure Client (σ : Type) where
  CreateZone : ZoneInfo → σ → Except GoError ZoneInfo × σ
  GetZone : String → σ → Except GoError ZoneInfo × σ
  UpdateZone : String → ZoneInfo → σ → Option GoError × σ
  DeleteZone : String → σ → Option GoError × σ
  ZoneExists : String → σ → Except GoError Bool × σ
  ListRecordsInRRSet : String → String → String → σ → Except GoError (List Record) × σ

/-- A client call with its arguments. -/
inductive Call where
  | CreateZone (zoneInfo : ZoneInfo)
  | GetZone (name : String)
  | UpdateZone (id : String) (zoneInfo : ZoneInfo)
  | DeleteZone (id : String)
  | ZoneExists (name : String)
  | ListRecordsInRRSet (zone : String) (name : String) (tpe : String)
deriving DecidableEq

/-- The remote system together with the calls made so far, oldest first. -/
structure World (σ : Type) where
  remote : σ
  calls : List Call

/-- The call `client.CreateZone(zoneInfo)`, recorded. -/
def Client.callCreateZone {σ : Type} (client : Client σ) (zoneInfo : ZoneInfo) (w : World σ) :
    Except GoError ZoneInfo × World σ :=
  let r := client.CreateZone zoneInfo w.remote
  (r.1, { remote := r.2, calls := w.calls ++ [.CreateZone zoneInfo] })

/-- The call `client.GetZone(name)`, recorded. -/
def Client.callGetZone {σ : Type} (client : Client σ) (name : String) (w : World σ) :
    Except GoError ZoneInfo × World σ :=
  let r := client.GetZone name w.remote
  (r.1, { remote := r.2, calls := w.calls ++ [.GetZone name] })

/-- The call `client.UpdateZone(id, zoneInfo)`, recorded. -/
def Client.callUpdateZone {σ : Type} (client : Client σ) (id : String) (zoneInfo : ZoneInfo)
    (w : World σ) : Option GoError × World σ :=
  let r := client.UpdateZone id zoneInfo w.remote
  (r.1, { remote := r.2, calls := w.calls ++ [.UpdateZone id zoneInfo] })

/-- The call `client.DeleteZone(id)`, recorded. -/
def Client.callDeleteZone {σ : Type} (client : Client σ) (id : String) (w : World σ) :
    Option GoError × World σ :=
  let r := client.DeleteZone id w.remote
  (r.1, { remote := r.2, calls := w.calls ++ [.DeleteZone id] })

/-- The call `client.ZoneExists(name)`, recorded. -/
def Client.callZoneExists {σ : Type} (client : Client σ) (name : String) (w : World σ) :
    Except GoError Bool × World σ :=
  let r := client.ZoneExists name w.remote
  (r.1, { remote := r.2, calls := w.calls ++ [.ZoneExists name] })

/-- The call `client.ListRecordsInRRSet(zone, name, tpe)`, recorded. -/
def Client.callListRecordsInRRSet {σ : Type} (client : Client σ) (zone name tpe : String)
    (w : World σ) : Except GoError (List Record) × World σ :=
  let r := client.ListRecordsInRRSet zone name tpe w.remote
  (r.1, { remote := r.2, calls := w.calls ++ [.ListRecordsInRRSet zone name tpe] })

/-! ## The state container (`schema.ResourceData`) -/

/-- A Go slice of strings. -/
abbrev StringSlice := List String

/-- A `*schema.Set` of strings: its elements, each once. -/
structure SchemaSet where
  elems : StringSlice
  nodup : elems.Nodup
deriving DecidableEq

/-- Method `List`: the elements of the set, each exactly once. -/
def SchemaSet.List (s : SchemaSet) : StringSlice := s.elems

/-- The set a slice of strings is stored as: its distinct elements. -/
def SchemaSet.ofList (l : StringSlice) : SchemaSet := ⟨List.dedup l, List.nodup_dedup l⟩

/-- The three fields of the schema of `resourcePDNSZone`. -/
structure Fields where
  name : String
  kind : String
  nameservers : SchemaSet
deriving DecidableEq

/-- The `schema.ResourceData` of one resource: the identity, the values of the prior state
(the old side of `GetChange`), the values of the prior state merged with the planned diff
(the new side of `GetChange`), and the values written with `Set`, which `Get` reads first. -/
structure ResourceData where
  id : String
  state : Fields
  planned : Fields
  setName : Option String
  setKind : Option String
  setNameservers : Option SchemaSet
deriving DecidableEq

/-- The call `d.Id()`. -/
def ResourceData.Id (d : ResourceData) : String := d.id

/-- The call `d.SetId(v)`. -/
def ResourceData.SetId (d : ResourceData) (v : String) : ResourceData := { d with id := v }

/-- The expression `d.Get("name").(string)`. -/
def ResourceData.GetName (d : ResourceData) : String := d.setName.getD d.planned.name

/-- The expression `d.Get("kind").(string)`. -/
def ResourceData.GetKind (d : ResourceData) : String := d.setKind.getD d.planned.kind

/-- The expression `d.Get("nameservers").(*schema.Set)`. -/
def ResourceData.GetNameservers (d : ResourceData) : SchemaSet :=
  d.setNameservers.getD d.planned.nameservers

/-- The call `d.Set("name", v)`. -/
def ResourceData.SetName (d : ResourceData) (v : String) : ResourceData :=
  { d with setName := some v }

/-- The call `d.Set("kind", v)`. -/
def ResourceData.SetKind (d : ResourceData) (v : String) : ResourceData :=
  { d with setKind := some v }

/-- The call `d.Set("nameservers", v)` with `v` a slice of strings. -/
def ResourceData.SetNameservers (d : ResourceData) (v : List String) : ResourceData :=
  { d with setNameservers := some (SchemaSet.ofList v) }

/-- The call `d.HasChange("kind")`: whether the planned value differs from the prior one. -/
def ResourceData.HasChangeKind (d : ResourceData) : Bool := d.state.kind != d.planned.kind

/-! ## The handlers (`resource_powerdns_zone.go`)

Each handler takes the client, the resource data and the world, and gives back what Go
returns, the resource data afterwards and the world afterwards. Log output is left out. -/

/-- The function `resourcePDNSZoneCreate`. -/
def resourcePDNSZoneCreate {σ : Type} (client : Client σ) (d : ResourceData) (w : World σ) :
    Option GoError × ResourceData × World σ :=
  let nameservers : List String :=
    d.GetNameservers.List.foldl (fun acc nameserver => acc ++ [nameserver]) []
  let zoneInfo : ZoneInfo :=
    { ID := "", Name := d.GetName, Kind := d.GetKind, Nameservers := nameservers }
  match client.callCreateZone zoneInfo w with
  | (.error err, w1) => (some err, d, w1)
  | (.ok createdZoneInfo, w1) => (none, d.SetId createdZoneInfo.ID, w1)

/-- The function `resourcePDNSZoneRead`. -/
def resourcePDNSZoneRead {σ : Type} (client : Client σ) (d : ResourceData) (w : World σ) :
    Option GoError × ResourceData × World σ :=
  match client.callGetZone d.GetName w with
  | (.error err, w1) =>
    (some (.errorString ("Couldn't fetch PowerDNS Zone: " ++ err.Error)), d, w1)
  | (.ok zoneInfo, w1) => (none, (d.SetName zoneInfo.Name).SetKind zoneInfo.Kind, w1)

/-- The function `resourcePDNSZoneUpdate`. -/
def resourcePDNSZoneUpdate {σ : Type} (client : Client σ) (d : ResourceData) (w : World σ) :
    Option GoError × ResourceData × World σ :=
  let zoneInfo : ZoneInfo := { ID := "", Name := "", Kind := "", Nameservers := [] }
  let shouldUpdate := false
  let (zoneInfo, shouldUpdate) :=
    if d.HasChangeKind then ({ zoneInfo with Kind := d.GetKind }, true)
    else (zoneInfo, shouldUpdate)
  if shouldUpdate then
    match client.callUpdateZone d.Id zoneInfo w with
    | (err, w1) => (err, d, w1)
  else (none, d, w)

/-- The function `resourcePDNSZoneDelete`. -/
def resourcePDNSZoneDelete {σ : Type} (client : Client σ) (d : ResourceData) (w : World σ) :
    Option GoError × ResourceData × World σ :=
  match client.callDeleteZone d.Id w with
  | (some err, w1) =>
    (some (.errorString ("Error deleting PowerDNS Zone: " ++ err.Error)), d, w1)
  | (none, w1) => (none, d, w1)

/-- The function `resourcePDNSZoneExists`, which returns a boolean and an error. -/
def resourcePDNSZoneExists {σ : Type} (client : Client σ) (d : ResourceData) (w : World σ) :
    (Bool × Option GoError) × ResourceData × World σ :=
  let name := d.GetName
  match client.callZoneExists name w with
  | (.error err, w1) =>
    ((false, some (.errorString ("Error checking PowerDNS Zone: " ++ err.Error))), d, w1)
  | (.ok exists_, w1) => ((exists_, none), d, w1)

/-- The function `resourcePDNSZoneImport`, which returns a slice of resource data (nil, here
the empty list, on failure) and an error. -/
def resourcePDNSZoneImport {σ : Type} (client : Client σ) (d : ResourceData) (w : World σ) :
    (List ResourceData × Option GoError) × World σ :=
  match jsonUnmarshal d.Id with
  | .error err => (([], some err), w)
  | .ok data =>
    match data.get "name" with
    | none => (([], some (.errorString "missing zone name in input data")), w)
    | some zoneName =>
      match client.callGetZone zoneName w with
      | (.error err, w1) =>
        (([], some (.errorString
          ("couldn't fetch zone " ++ zoneName ++ " from PowerDNS: " ++ err.Error))), w1)
      | (.ok zone, w1) =>
        match client.callListRecordsInRRSet zoneName zoneName "NS" w1 with
        | (.error err, w2) =>
          (([], some (.errorString
            ("couldn't fetch zone " ++ zoneName ++ " nameservers from PowerDNS: "
              ++ err.Error))), w2)
        | (.ok nameservers, w2) =>
          let zoneNameservers : List String :=
            nameservers.foldl (fun acc nameserver => acc ++ [nameserver.Content]) []
          let d1 := (((d.SetName zone.Name).SetKind zone.Kind).SetNameservers
            zoneNameservers).SetId zoneName
          (([d1], none), w2)

/-! ## An in-memory remote system, used to instantiate the theorems -/

/-- A remote system held in memory: the list of its zones. `mkID` is the identifier the
remote assigns to a zone of a given name (PowerDNS itself uses the name). Zones are looked
up by name and deleted and updated by identifier. -/
def memClient (mkID : String → String) : Client (List ZoneInfo) where
  CreateZone := fun z s =>
    if z.Name = "" then (.error (.errorString "Error creating zone: empty name"), s)
    else (.ok { z with ID := mkID z.Name }, { z with ID := mkID z.Name } :: s)
  GetZone := fun name s =>
    match s.find? (fun z => z.Name == name) with
    | some z => (.ok z, s)
    | none => (.error (.errorString "Not Found"), s)
  UpdateZone := fun id zi s =>
    (none, s.map (fun z => if z.ID = id then { z with Kind := zi.Kind } else z))
  DeleteZone := fun id s => (none, s.filter (fun z => z.ID != id))
  ZoneExists := fun name s => (.ok (s.any (fun z => z.Name == name)), s)
  ListRecordsInRRSet := fun zone name tpe s =>
    match s.find? (fun z => z.Name == zone) with
    | some z =>
      if name = zone ∧ tpe = "NS" then (.ok (z.Nameservers.map Record.mk), s) else (.ok [], s)
    | none => (.error (.errorString "Not Found"), s)

/-- A remote system like `memClient id` (zone names are the identifiers) whose lookups
`GetZone` and `ListRecordsInRRSet` also accept a zone name written without its trailing dot,
while `DeleteZone` and `ZoneExists` take the key as it is. -/
def lenientClient : Client (List ZoneInfo) :=
  { memClient id with
    GetZone := fun name s =>
      match s.find? (fun z => z.Name == name || z.Name == name ++ ".") with
      | some z => (.ok z, s)
      | none => (.error (.errorString "Not Found"), s)
    ListRecordsInRRSet := fun zone name tpe s =>
      match s.find? (fun z => z.Name == zone || z.Name == zone ++ ".") with
      | some z =>
        if name = zone ∧ tpe = "NS" then (.ok (z.Nameservers.map Record.mk), s)
        else (.ok [], s)
      | none => (.error (.errorString "Not Found"), s) }

/-- A resource data as the importer receives it: only the identity is set. -/
def importData (id : String) : ResourceData :=
  { id := id
    state := { name := "", kind := "", nameservers := SchemaSet.ofList [] }
    planned := { name := "", kind := "", nameservers := SchemaSet.ofList [] }
    setName := none, setKind := none, setNameservers := none }

/-- A resource data as `Create` receives it: no identity, no prior state, the configuration
as the planned values. -/
def configData (name kind : String) (nameservers : StringSlice) : ResourceData :=
  { id := ""
    state := { name := "", kind := "", nameservers := SchemaSet.ofList [] }
    planned := { name := name, kind := kind, nameservers := SchemaSet.ofList nameservers }
    setName := none, setKind := none, setNameservers := none }

/-! ## Predicates used in the statements and proofs -/

namespace Json

/-- The error field of the scanner only ever holds parse errors. -/
def Scanner.ErrOk (s : Scanner) : Prop := ∀ e, s.err = some e → e.isParseError = true

/-- The error field of `t` is that of `s0` or a syntax error. -/
def ErrStep (s0 t : Scanner) : Prop :=
  t.err = s0.err ∨ ∃ msg, t.err = some (.jsonSyntaxError msg)

/-- A saved decoder error is a parse error. -/
def SavedOk (saved : Option GoError) : Prop := ∀ e, saved = some e → e.isParseError = true

end Json

/-- A remote system whose zones in state `s` are `zones s`: a successful `DeleteZone k`
adds no zone and leaves no zone whose identifier is `k`, and `ZoneExists n` reports, without
error, whether a zone named `n` is held. -/
structure KeyedRemote {σ : Type} (client : Client σ) (zones : σ → List ZoneInfo) : Prop where
  delete_removes : ∀ k s, (client.DeleteZone k s).1 = none →
    ∀ z ∈ zones (client.DeleteZone k s).2, z ∈ zones s ∧ z.ID ≠ k
  exists_reports : ∀ n s,
    (client.ZoneExists n s).1 = .ok ((zones s).any (fun z => z.Name == n))

/-- The resource data reachable through successful lifecycle operations against `client`:
a successful `Create` or `Import` (of an input among `inputs`) starts a managed resource, and
a successful `Read`, `Update`, `Delete` or `Exists` continues it. -/
inductive Lifecycle {σ : Type} (client : Client σ) (inputs : String → Prop) :
    ResourceData → Prop where
  | created (d : ResourceData) (w : World σ) :
    (resourcePDNSZoneCreate client d w).1 = none →
    Lifecycle client inputs (resourcePDNSZoneCreate client d w).2.1
  | imported (d : ResourceData) (w : World σ) (d1 : ResourceData) :
    inputs d.Id → (resourcePDNSZoneImport client d w).1 = ([d1], none) →
    Lifecycle client inputs d1
  | read (d : ResourceData) (w : World σ) :
    Lifecycle client inputs d → (resourcePDNSZoneRead client d w).1 = none →
    Lifecycle client inputs (resourcePDNSZoneRead client d w).2.1
  | updated (d : ResourceData) (w : World σ) :
    Lifecycle client inputs d → (resourcePDNSZoneUpdate client d w).1 = none →
    Lifecycle client inputs (resourcePDNSZoneUpdate client d w).2.1
  | deleted (d : ResourceData) (w : World σ) :
    Lifecycle client inputs d → (resourcePDNSZoneDelete client d w).1 = none →
    Lifecycle client inputs (resourcePDNSZoneDelete client d w).2.1
  | checked (d : ResourceData) (w : World σ) :
    Lifecycle client inputs d → (resourcePDNSZoneExists client d w).1.2 = none →
    Lifecycle client inputs (resourcePDNSZoneExists client d w).2.1

/-! ## The JSON texts of flat mappings, and the scanner inside them -/

namespace Json

/-- `Ws P l`: the text `l` is JSON white space, possibly none, followed by a text satisfying
`P`. -/
inductive Ws (P : List Char → Prop) : List Char → Prop where
  | here {l : List Char} : P l → Ws P l
  | space {c : Char} {l : List Char} : isSpace c = true → Ws P l → Ws P (c :: l)

/-- The letters that may follow a backslash in a string literal, other than `u`. -/
def isEscape (c : Char) : Bool :=
  c == 'b' || c == 'f' || c == 'n' || c == 'r' || c == 't' || c == '\\' || c == '/' || c == '"'

/-- `StrBody P l`: the text `l` is the rest of a string literal after its opening quote, up
to and including the closing quote, followed by a text satisfying `P`. -/
inductive StrBody (P : List Char → Prop) : List Char → Prop where
  | close {l : List Char} : P l → StrBody P ('"' :: l)
  | plain {c : Char} {l : List Char} : c ≠ '"' → c ≠ '\\' → ¬ c.toNat < 0x20 →
    StrBody P l → StrBody P (c :: l)
  | escape {c : Char} {l : List Char} : isEscape c = true → StrBody P l →
    StrBody P ('\\' :: c :: l)
  | unicode {a b c d : Char} {l : List Char} : isHex a = true → isHex b = true →
    isHex c = true → isHex d = true → StrBody P l →
    StrBody P ('\\' :: 'u' :: a :: b :: c :: d :: l)

/-- A string literal followed by a text satisfying `P`. -/
def Str (P : List Char → Prop) (l : List Char) : Prop := ∃ r, l = '"' :: r ∧ StrBody P r

/-- The fixed text `t` followed by a text satisfying `P`. -/
def Lit (t : List Char) (P : List Char → Prop) (l : List Char) : Prop :=
  ∃ r, l = t ++ r ∧ P r

/-- A member value followed by a text satisfying `P`: a string literal or, when `nulls` is
set, the literal `null`. -/
def Value (nulls : Bool) (P : List Char → Prop) (l : List Char) : Prop :=
  Str P l ∨ (nulls = true ∧ Lit ['n', 'u', 'l', 'l'] P l)

/-- One member `key : value` with the white space around its parts, followed by a text
satisfying `P`. -/
def Member (nulls : Bool) (P : List Char → Prop) : List Char → Prop :=
  Ws (Str (Ws (Lit [':'] (Ws (Value nulls (Ws P))))))

/-- What follows a member of an object with `n` further members: the closing brace and then
`P`, or a comma, the next member and what follows it. -/
def MemberTail (nulls : Bool) (P : List Char → Prop) : Nat → List Char → Prop
  | 0 => Lit ['}'] P
  | n + 1 => Lit [','] (Member nulls (MemberTail nulls P n))

/-- An object all of whose members have a string (or, when `nulls` is set, `null`) as value,
followed by a text satisfying `P`. -/
def Object (nulls : Bool) (P : List Char → Prop) : List Char → Prop :=
  Lit ['{'] (fun l => Ws (Lit ['}'] P) l ∨ ∃ n, Member nulls (MemberTail nulls P n) l)

/-- The end of the text. -/
def End (l : List Char) : Prop := l = []

/-- The JSON texts that serialise a flat mapping from string keys to string values: an
object whose member values are all strings, with white space allowed around it. With `nulls`
set, a member value may also be `null` and the whole text may be `null`. -/
def Text (nulls : Bool) : List Char → Prop :=
  Ws (fun l => Object nulls (Ws End) l ∨ (nulls = true ∧ Lit ['n', 'u', 'l', 'l'] (Ws End) l))

/-- The scanner in the middle of a text: in step `step` with stack `ps`, no error. -/
abbrev mid (step : Step) (ps : List ParseState) : Scanner :=
  { step := step, endTop := false, parseState := ps, err := none }

/-- The scanner after the top-level value. -/
abbrev atEnd : Scanner :=
  { step := .stateEndTop, endTop := true, parseState := [], err := none }

/-- The first byte of a text that is not white space. -/
def firstByte (l : List Char) : Option Char := l.find? (fun c => !isSpace c)

/-- Where the scanner stands inside the top-level object. -/
inductive Phase where
  | key | afterKey | beforeValue | valueString | afterValue | nextKey

/-- The scanner of a phase. -/
def Phase.scanner : Phase → Scanner
  | .key => mid .stateInString [.parseObjectKey]
  | .afterKey => mid .stateEndValue [.parseObjectKey]
  | .beforeValue => mid .stateBeginValue [.parseObjectValue]
  | .valueString => mid .stateInString [.parseObjectValue]
  | .afterValue => mid .stateEndValue [.parseObjectValue]
  | .nextKey => mid .stateBeginString [.parseObjectKey]

/-- The literal being read and the decoder `D` awaiting the remaining tokens, in a phase
in which no error has been saved. -/
def Phase.dec : Phase → Option (List Char) → (List Token → GoMap × Option GoError) → Prop
  | .key, lit, D => ∃ m item, lit = some item ∧ D = object m none none 0
  | .afterKey, lit, D => ∃ m k, ∀ ts, D (flush lit ++ ts) = object m none (some k) 0 ts
  | .beforeValue, lit, D => lit = none ∧ ∃ m k, D = object m none (some k) 0
  | .valueString, lit, D =>
    ∃ m k item, lit = some item ∧ item.head? = some '"' ∧ D = object m none (some k) 0
  | .afterValue, lit, D => ∃ m, ∀ ts, D (flush lit ++ ts) = object m none none 0 ts
  | .nextKey, lit, D => lit = none ∧ ∃ m, D = object m none none 0

/-- The texts that complete an object from a phase on, with `n` further members. -/
def Phase.rest (n : Nat) : Phase → List Char → Prop
  | .key => StrBody (Ws (Lit [':'] (Ws (Value true (Ws (MemberTail true (Ws End) n))))))
  | .afterKey => Ws (Lit [':'] (Ws (Value true (Ws (MemberTail true (Ws End) n)))))
  | .beforeValue => Ws (Value true (Ws (MemberTail true (Ws End) n)))
  | .valueString => StrBody (Ws (MemberTail true (Ws End) n))
  | .afterValue => Ws (MemberTail true (Ws End) n)
  | .nextKey => Member true (MemberTail true (Ws End) n)

/-- The rest `l` of a text is accepted from scanner `s`, with `lit` the literal being read
and `D` the decoder awaiting the remaining tokens. -/
def Acc (s : Scanner) (lit : Option (List Char)) (D : List Token → GoMap × Option GoError)
    (l : List Char) : Prop :=
  checkValidFrom s l = none ∧ (D (tokensFrom s lit l)).2 = none

/-- The decoder `D`, once the literal `lit` has been handed to it, is `F`. -/
def Eff (lit : Option (List Char)) (D F : List Token → GoMap × Option GoError) : Prop :=
  ∀ ts, D (flush lit ++ ts) = F ts

end Json

/-! ## Auxiliary facts -/

/-- The accumulating loop `acc = append(acc, f x)` computes a map. -/
theorem foldl_append_eq_map {α β : Type} (f : α → β) (l : List α) (init : List β) :
    l.foldl (fun acc x => acc ++ [f x]) init = init ++ l.map f := by
  induction l generalizing init with
  | nil => simp
  | cons a l ih => simp [ih]

namespace Json

theorem error_err (s0 s : Scanner) (c : Char) (ctx : String) : ErrStep s0 (s.error c ctx).1 :=
  .inr ⟨_, rfl⟩

theorem pushParseState_err (s0 s : Scanner) (c : Char) (p : ParseState) (op : Op)
    (h : s.err = s0.err) : ErrStep s0 (s.pushParseState c p op).1 := by
  unfold Scanner.pushParseState
  dsimp only
  split
  · exact .inl h
  · exact error_err _ _ _ _

theorem popParseState_err (s : Scanner) : s.popParseState.err = s.err := by
  unfold Scanner.popParseState
  dsimp only
  split <;> rfl

theorem stateEndTop_err (s0 s : Scanner) (c : Char) (h : s.err = s0.err) :
    ErrStep s0 (stateEndTop s c).1 := by
  unfold stateEndTop
  split
  · exact error_err _ _ _ _
  · exact .inl h

theorem stateEndValue_err (s0 s : Scanner) (c : Char) (h : s.err = s0.err) :
    ErrStep s0 (stateEndValue s c).1 := by
  unfold stateEndValue
  split
  · exact stateEndTop_err _ _ _ h
  · split
    · exact .inl h
    · split <;> (repeat' split) <;>
        first
          | exact .inl h
          | exact error_err _ _ _ _
          | exact .inl ((popParseState_err s).trans h)

theorem stateBeginValue_err (s0 s : Scanner) (c : Char) (h : s.err = s0.err) :
    ErrStep s0 (stateBeginValue s c).1 := by
  unfold stateBeginValue
  (repeat' split) <;>
    first
      | exact .inl h
      | exact error_err _ _ _ _
      | exact pushParseState_err _ _ _ _ _ h

theorem stateBeginValueOrEmpty_err (s0 s : Scanner) (c : Char) (h : s.err = s0.err) :
    ErrStep s0 (stateBeginValueOrEmpty s c).1 := by
  unfold stateBeginValueOrEmpty
  (repeat' split) <;>
    first
      | exact .inl h
      | exact stateEndValue_err _ _ _ h
      | exact stateBeginValue_err _ _ _ h

theorem stateBeginString_err (s0 s : Scanner) (c : Char) (h : s.err = s0.err) :
    ErrStep s0 (stateBeginString s c).1 := by
  unfold stateBeginString
  (repeat' split) <;> first | exact .inl h | exact error_err _ _ _ _

theorem stateBeginStringOrEmpty_err (s0 s : Scanner) (c : Char) (h : s.err = s0.err) :
    ErrStep s0 (stateBeginStringOrEmpty s c).1 := by
  unfold stateBeginStringOrEmpty
  (repeat' split) <;>
    first
      | exact .inl h
      | exact stateEndValue_err _ _ _ h
      | exact stateBeginString_err _ _ _ h

theorem stateInString_err (s0 s : Scanner) (c : Char) (h : s.err = s0.err) :
    ErrStep s0 (stateInString s c).1 := by
  unfold stateInString
  (repeat' split) <;> first | exact .inl h | exact error_err _ _ _ _

theorem stateInStringEsc_err (s0 s : Scanner) (c : Char) (h : s.err = s0.err) :
    ErrStep s0 (stateInStringEsc s c).1 := by
  unfold stateInStringEsc
  (repeat' split) <;> first | exact .inl h | exact error_err _ _ _ _

theorem stateInStringEscHex_err (n : Step) (s0 s : Scanner) (c : Char) (h : s.err = s0.err) :
    ErrStep s0 (stateInStringEscHex n s c).1 := by
  unfold stateInStringEscHex
  (repeat' split) <;> first | exact .inl h | exact error_err _ _ _ _

theorem stateNeg_err (s0 s : Scanner) (c : Char) (h : s.err = s0.err) :
    ErrStep s0 (stateNeg s c).1 := by
  unfold stateNeg
  (repeat' split) <;> first | exact .inl h | exact error_err _ _ _ _

theorem state0_err (s0 s : Scanner) (c : Char) (h : s.err = s0.err) :
    ErrStep s0 (state0 s c).1 := by
  unfold state0
  (repeat' split) <;> first | exact .inl h | exact stateEndValue_err _ _ _ h

theorem state1_err (s0 s : Scanner) (c : Char) (h : s.err = s0.err) :
    ErrStep s0 (state1 s c).1 := by
  unfold state1
  (repeat' split) <;> first | exact .inl h | exact state0_err _ _ _ h

theorem stateDot_err (s0 s : Scanner) (c : Char) (h : s.err = s0.err) :
    ErrStep s0 (stateDot s c).1 := by
  unfold stateDot
  (repeat' split) <;> first | exact .inl h | exact error_err _ _ _ _

theorem stateDot0_err (s0 s : Scanner) (c : Char) (h : s.err = s0.err) :
    ErrStep s0 (stateDot0 s c).1 := by
  unfold stateDot0
  (repeat' split) <;> first | exact .inl h | exact stateEndValue_err _ _ _ h

theorem stateESign_err (s0 s : Scanner) (c : Char) (h : s.err = s0.err) :
    ErrStep s0 (stateESign s c).1 := by
  unfold stateESign
  (repeat' split) <;> first | exact .inl h | exact error_err _ _ _ _

theorem stateE_err (s0 s : Scanner) (c : Char) (h : s.err = s0.err) :
    ErrStep s0 (stateE s c).1 := by
  unfold stateE
  (repeat' split) <;> first | exact .inl h | exact stateESign_err _ _ _ h

theorem stateE0_err (s0 s : Scanner) (c : Char) (h : s.err = s0.err) :
    ErrStep s0 (stateE0 s c).1 := by
  unfold stateE0
  (repeat' split) <;> first | exact .inl h | exact stateEndValue_err _ _ _ h

theorem stateLiteral_err (want : Char) (n : Step) (ctx : String) (s0 s : Scanner) (c : Char)
    (h : s.err = s0.err) : ErrStep s0 (stateLiteral want n ctx s c).1 := by
  unfold stateLiteral
  (repeat' split) <;> first | exact .inl h | exact error_err _ _ _ _

/-- After one step the error field is the old one or a syntax error. -/
theorem run_err (s : Scanner) (c : Char) : ErrStep s (s.run c).1 := by
  unfold Scanner.run
  split
  · exact stateBeginValueOrEmpty_err _ _ _ rfl
  · exact stateBeginValue_err _ _ _ rfl
  · exact stateBeginStringOrEmpty_err _ _ _ rfl
  · exact stateBeginString_err _ _ _ rfl
  · exact stateEndValue_err _ _ _ rfl
  · exact stateEndTop_err _ _ _ rfl
  · exact stateInString_err _ _ _ rfl
  · exact stateInStringEsc_err _ _ _ rfl
  · exact stateInStringEscHex_err _ _ _ _ rfl
  · exact stateInStringEscHex_err _ _ _ _ rfl
  · exact stateInStringEscHex_err _ _ _ _ rfl
  · exact stateInStringEscHex_err _ _ _ _ rfl
  · exact stateNeg_err _ _ _ rfl
  · exact state1_err _ _ _ rfl
  · exact state0_err _ _ _ rfl
  · exact stateDot_err _ _ _ rfl
  · exact stateDot0_err _ _ _ rfl
  · exact stateE_err _ _ _ rfl
  · exact stateESign_err _ _ _ rfl
  · exact stateE0_err _ _ _ rfl
  · exact stateLiteral_err _ _ _ _ _ _ rfl
  · exact stateLiteral_err _ _ _ _ _ _ rfl
  · exact stateLiteral_err _ _ _ _ _ _ rfl
  · exact stateLiteral_err _ _ _ _ _ _ rfl
  · exact stateLiteral_err _ _ _ _ _ _ rfl
  · exact stateLiteral_err _ _ _ _ _ _ rfl
  · exact stateLiteral_err _ _ _ _ _ _ rfl
  · exact stateLiteral_err _ _ _ _ _ _ rfl
  · exact stateLiteral_err _ _ _ _ _ _ rfl
  · exact stateLiteral_err _ _ _ _ _ _ rfl
  · exact .inl rfl

theorem run_errOk (s : Scanner) (c : Char) (hs : s.ErrOk) : (s.run c).1.ErrOk := by
  intro e he
  rcases run_err s c with h | ⟨msg, h⟩
  · exact hs e (h ▸ he)
  · rw [h] at he
    cases he
    rfl

theorem eof_errOk (s : Scanner) (hs : s.ErrOk) (e : GoError) (h : s.eof = some e) :
    e.isParseError = true := by
  have h1 : (s.run ' ').1.ErrOk := run_errOk s ' ' hs
  generalize hs1 : (s.run ' ').1 = s1 at h1
  unfold Scanner.eof at h
  rw [hs1] at h
  cases hse : s.err with
  | some e0 =>
    rw [hse] at h
    cases h
    exact hs _ hse
  | none =>
    rw [hse] at h
    dsimp only at h
    split at h
    · cases h
    · split at h
      · cases h
      · cases hs1e : s1.err with
        | some e1 =>
          rw [hs1e] at h
          cases h
          exact h1 _ hs1e
        | none =>
          rw [hs1e] at h
          cases h
          rfl

theorem checkValidFrom_isParseError (data : List Char) (s : Scanner) (hs : s.ErrOk)
    (e : GoError) (h : checkValidFrom s data = some e) : e.isParseError = true := by
  induction data generalizing s with
  | nil => exact eof_errOk s hs e h
  | cons c cs ih =>
    unfold checkValidFrom at h
    split at h
    · next s1 hrun =>
      have h1 : (s.run c).1.ErrOk := run_errOk s c hs
      rw [hrun] at h1
      exact h1 e h
    · next s1 op hop hrun =>
      have h1 : (s.run c).1.ErrOk := run_errOk s c hs
      rw [hrun] at h1
      exact ih s1 h1 h

theorem checkValid_isParseError (data : List Char) (e : GoError)
    (h : checkValid data = some e) : e.isParseError = true :=
  checkValidFrom_isParseError data Scanner.reset (by intro e h; cases h) e h

theorem savedOk_none : SavedOk none := by
  intro e h
  cases h

theorem savedOk_saveError (saved : Option GoError) (value type : String) (h : SavedOk saved) :
    SavedOk (saveError saved (.jsonUnmarshalTypeError value type)) := by
  unfold saveError
  split
  · exact h
  · intro e he
    cases he
    rfl

theorem savedOk_literalStoreString (item : List Char) (saved : Option GoError)
    (h : SavedOk saved) : SavedOk (literalStoreString item saved).2 := by
  unfold literalStoreString
  split
  · exact h
  · exact h
  · exact savedOk_saveError _ _ _ h

theorem savedOk_object (ts : List Token) (m : GoMap) (saved : Option GoError)
    (key : Option String) (depth : Nat) (h : SavedOk saved) :
    SavedOk (object m saved key depth ts).2 := by
  induction ts generalizing m saved key depth with
  | nil => exact h
  | cons t rest ih =>
    unfold object
    split
    · exact ih _ _ _ _ h
    · exact ih _ _ _ _ h
    · exact ih _ _ _ _ h
    · exact ih _ _ _ _ h
    · exact ih _ _ _ _ h
    · exact ih _ _ _ _ h
    · exact ih _ _ _ _ (savedOk_literalStoreString _ _ h)
    · exact ih _ _ _ _ (savedOk_saveError _ _ _ h)
    · exact ih _ _ _ _ (savedOk_saveError _ _ _ h)
    · exact h
    · exact ih _ _ _ _ h

theorem savedOk_unmarshal (ts : List Token) : SavedOk (unmarshal ts).2 := by
  unfold unmarshal
  split
  · exact savedOk_object _ _ _ _ _ savedOk_none
  · intro e he
    cases he
    rfl
  · split
    · exact savedOk_none
    · intro e he
      cases he
      rfl
  · exact savedOk_none

end Json

/-- Every error of `json.Unmarshal` is a syntax error or a type mismatch. -/
theorem jsonUnmarshal_isParseError (data : String) (e : GoError)
    (h : jsonUnmarshal data = .error e) : e.isParseError = true := by
  unfold jsonUnmarshal at h
  split at h
  · next e0 he0 =>
    cases h
    exact Json.checkValid_isParseError _ _ he0
  · split at h
    · next m e1 he1 =>
      cases h
      have := Json.savedOk_unmarshal (Json.tokens data.toList)
      rw [he1] at this
      exact this _ rfl
    · cases h

/-! ## The decoder accepts exactly the flat mappings with string or null values -/

namespace Json

theorem checkValidFrom_cons (s : Scanner) (c : Char) (cs : List Char) :
    checkValidFrom s (c :: cs) =
      if (s.run c).2 = .scanError then (s.run c).1.err else checkValidFrom (s.run c).1 cs := by
  rw [checkValidFrom]
  rcases h : s.run c with ⟨s1, op⟩
  cases op <;> simp

theorem checkValidFrom_failed (l : List Char) (s : Scanner) (h1 : s.step = .stateError)
    (h2 : s.err ≠ none) : checkValidFrom s l ≠ none := by
  cases l with
  | nil =>
    unfold checkValidFrom Scanner.eof
    cases he : s.err with
    | none => exact absurd he h2
    | some e => simp
  | cons c cs =>
    rw [checkValidFrom_cons]
    have hr : s.run c = (s, .scanError) := by
      unfold Scanner.run
      rw [h1]
    rw [hr]
    simpa using h2

theorem run_atEnd (c : Char) :
    atEnd.run c =
      if isSpace c then (atEnd, .scanEnd)
      else ((atEnd.error c "after top-level value").1, .scanEnd) := by
  simp only [Scanner.run, stateEndTop]
  cases isSpace c <;> rfl

theorem atEnd_ws (l : List Char) (h : checkValidFrom atEnd l = none) : Ws End l := by
  induction l with
  | nil => exact .here rfl
  | cons c cs ih =>
    rw [checkValidFrom_cons, run_atEnd] at h
    by_cases hs : isSpace c = true
    · simp only [hs, if_true] at h
      exact .space hs (ih (by simpa using h))
    · simp only [hs] at h
      exfalso
      revert h
      simp only [Bool.false_eq_true, if_false]
      intro h
      simp at h
      exact checkValidFrom_failed cs _ rfl (by simp [Scanner.error]) h

theorem tokensFrom_cons (s : Scanner) (lit : Option (List Char)) (c : Char) (cs : List Char) :
    tokensFrom s lit (c :: cs) =
      match (s.run c).2 with
      | .scanBeginLiteral => flush lit ++ tokensFrom (s.run c).1 (some [c]) cs
      | .scanContinue => tokensFrom (s.run c).1 (lit.map (fun item => item ++ [c])) cs
      | .scanSkipSpace => flush lit ++ tokensFrom (s.run c).1 none cs
      | .scanBeginObject => flush lit ++ .beginObject :: tokensFrom (s.run c).1 none cs
      | .scanEndObject => flush lit ++ .endObject :: tokensFrom (s.run c).1 none cs
      | .scanBeginArray => flush lit ++ .beginArray :: tokensFrom (s.run c).1 none cs
      | .scanEndArray => flush lit ++ .endArray :: tokensFrom (s.run c).1 none cs
      | .scanObjectKey => flush lit ++ .objectKey :: tokensFrom (s.run c).1 none cs
      | .scanObjectValue => flush lit ++ .objectValue :: tokensFrom (s.run c).1 none cs
      | .scanArrayValue => flush lit ++ .arrayValue :: tokensFrom (s.run c).1 none cs
      | .scanEnd => flush lit
      | .scanError => flush lit := by
  rw [tokensFrom]
  rcases h : s.run c with ⟨s1, op⟩
  cases op <;> rfl

/-- A literal being read comes out as a literal token that starts with what was read. -/
theorem tokensFrom_some (l : List Char) (s : Scanner) (item : List Char) :
    ∃ x rest, tokensFrom s (some item) l = .literal (item ++ x) :: rest := by
  induction l generalizing s item with
  | nil => exact ⟨[], [], by simp [tokensFrom, flush]⟩
  | cons c cs ih =>
    rw [tokensFrom_cons]
    cases (s.run c).2 <;> simp only [flush, List.singleton_append, List.cons_append,
      List.nil_append, Option.map_some']
    case scanContinue =>
      obtain ⟨x, rest, h⟩ := ih (s.run c).1 (item ++ [c])
      exact ⟨c :: x, rest, by rw [h]; simp⟩
    all_goals exact ⟨[], _, by rw [List.append_nil]⟩

/-- Once the decoder has saved an error, it returns one. -/
theorem object_saved (ts : List Token) (m : GoMap) (e : GoError) (key : Option String)
    (depth : Nat) : (object m (some e) key depth ts).2 ≠ none := by
  induction ts generalizing m key depth with
  | nil => simp [object]
  | cons t rest ih =>
    unfold object
    split
    · exact ih _ _ _
    · exact ih _ _ _
    · exact ih _ _ _
    · exact ih _ _ _
    · exact ih _ _ _
    · exact ih _ _ _
    · next item k =>
      have : (literalStoreString item (some e)).2 = some e := by
        unfold literalStoreString
        split <;> rfl
      simp only [this]
      exact ih _ _ _
    · exact ih _ _ _
    · exact ih _ _ _
    · simp
    · exact ih _ _ _

theorem eof_ne_none (s : Scanner) (h1 : s.endTop = false)
    (h2 : (s.run ' ').1.endTop = false) : s.eof ≠ none := by
  unfold Scanner.eof
  cases s.err with
  | some e => simp
  | none =>
    simp only [h1, h2, Bool.false_eq_true, if_false]
    cases (s.run ' ').1.err <;> simp

/-- A state that accepts exactly the bytes satisfying `cond`, continuing the literal. -/
theorem continue_step (s next : Scanner) (cond : Char → Bool)
    (hok : ∀ c, cond c = true → s.run c = (next, .scanContinue))
    (herr : ∀ c, cond c = false → (s.run c).2 = .scanError ∧ (s.run c).1.err ≠ none)
    (h1 : s.endTop = false) (h2 : (s.run ' ').1.endTop = false)
    (l : List Char) (h : checkValidFrom s l = none) :
    ∃ c cs, l = c :: cs ∧ cond c = true ∧ checkValidFrom next cs = none
      ∧ ∀ lit, tokensFrom s lit l = tokensFrom next (lit.map (fun item => item ++ [c])) cs := by
  cases l with
  | nil =>
    exfalso
    exact eof_ne_none s h1 h2 h
  | cons c cs =>
    rw [checkValidFrom_cons] at h
    cases hc : cond c
    · obtain ⟨h2, h3⟩ := herr c hc
      rw [h2] at h
      simp only [if_true] at h
      exact absurd h h3
    · have hr := hok c hc
      rw [hr] at h
      simp only [reduceCtorEq, if_false] at h
      refine ⟨c, cs, rfl, hc, h, ?_⟩
      intro lit
      rw [tokensFrom_cons, hr]


theorem hex_step (cur next : Step) (ps : List ParseState)
    (hcur : ∀ c, (mid cur ps).run c = stateInStringEscHex next (mid cur ps) c)
    (l : List Char) (h : checkValidFrom (mid cur ps) l = none) :
    ∃ c cs, l = c :: cs ∧ isHex c = true ∧ checkValidFrom (mid next ps) cs = none
      ∧ ∀ lit, tokensFrom (mid cur ps) lit l
          = tokensFrom (mid next ps) (lit.map (fun item => item ++ [c])) cs := by
  refine continue_step (mid cur ps) (mid next ps) isHex ?_ ?_ rfl ?_ l h
  · intro c hc
    rw [hcur, stateInStringEscHex, if_pos hc]
  · intro c hc
    rw [hcur, stateInStringEscHex, hc]
    exact ⟨rfl, by simp [Scanner.error]⟩
  · rw [hcur]
    rfl

theorem literal_step (cur next : Step) (want : Char) (ctx : String) (ps : List ParseState)
    (hcur : ∀ c, (mid cur ps).run c = stateLiteral want next ctx (mid cur ps) c)
    (hw : want ≠ ' ')
    (l : List Char) (h : checkValidFrom (mid cur ps) l = none) :
    ∃ cs, l = want :: cs ∧ checkValidFrom (mid next ps) cs = none
      ∧ ∀ lit, tokensFrom (mid cur ps) lit l
          = tokensFrom (mid next ps) (lit.map (fun item => item ++ [want])) cs := by
  obtain ⟨c, cs, hl, hc, hv, ht⟩ :=
    continue_step (mid cur ps) (mid next ps) (fun c => c == want) (by
      intro c hc
      rw [hcur, stateLiteral, if_pos hc]) (by
      intro c hc
      have hc2 : ¬ (c == want) = true := by
        have hc1 : (c == want) = false := hc
        rw [hc1]
        simp
      rw [hcur, stateLiteral, if_neg hc2]
      exact ⟨rfl, by simp [Scanner.error]⟩) rfl (by
      rw [hcur, stateLiteral]
      have hsp : ¬ (' ' == want) = true := by simpa using fun h => hw h.symm
      rw [if_neg hsp]
      rfl) l h
  have hcw : c = want := by simpa using hc
  subst hcw
  exact ⟨cs, hl, hv, ht⟩

/-- After a backslash in a string literal: a one-letter escape, or `u` and four hexadecimal
digits, and then the string goes on. -/
theorem escape_step (ps : List ParseState) (l : List Char)
    (h : checkValidFrom (mid .stateInStringEsc ps) l = none) :
    ∃ x cs, l = x ++ cs ∧ (∀ P r, StrBody P r → StrBody P ('\\' :: x ++ r))
      ∧ checkValidFrom (mid .stateInString ps) cs = none
      ∧ ∀ lit, tokensFrom (mid .stateInStringEsc ps) lit l
          = tokensFrom (mid .stateInString ps) (lit.map (fun item => item ++ x)) cs := by
  cases l with
  | nil => exact absurd h (eof_ne_none _ rfl rfl)
  | cons c cs =>
    by_cases he : isEscape c = true
    · have hr : (mid .stateInStringEsc ps).run c = (mid .stateInString ps, .scanContinue) := by
        simp only [Scanner.run, stateInStringEsc]
        simp only [isEscape] at he
        rw [if_pos he]
      rw [checkValidFrom_cons, hr] at h
      simp only [reduceCtorEq, if_false] at h
      refine ⟨[c], cs, rfl, fun P r hb => .escape he hb, h, ?_⟩
      intro lit
      rw [tokensFrom_cons, hr]
    · by_cases hu : c = 'u'
      · subst hu
        have hr : (mid .stateInStringEsc ps).run 'u'
            = (mid .stateInStringEscU ps, .scanContinue) := rfl
        rw [checkValidFrom_cons, hr] at h
        simp only [reduceCtorEq, if_false] at h
        obtain ⟨a, l1, hl1, ha, h1, t1⟩ :=
          hex_step .stateInStringEscU .stateInStringEscU1 ps (fun _ => rfl) cs h
        obtain ⟨b, l2, hl2, hb, h2, t2⟩ :=
          hex_step .stateInStringEscU1 .stateInStringEscU12 ps (fun _ => rfl) l1 h1
        obtain ⟨c, l3, hl3, hc, h3, t3⟩ :=
          hex_step .stateInStringEscU12 .stateInStringEscU123 ps (fun _ => rfl) l2 h2
        obtain ⟨d, l4, hl4, hd, h4, t4⟩ :=
          hex_step .stateInStringEscU123 .stateInString ps (fun _ => rfl) l3 h3
        subst hl1 hl2 hl3 hl4
        refine ⟨['u', a, b, c, d], l4, rfl, fun P r hbody => .unicode ha hb hc hd hbody, h4, ?_⟩
        intro lit
        rw [tokensFrom_cons, hr]
        simp only
        rw [t1, t2, t3, t4]
        cases lit <;> simp
      · exfalso
        have hr : ((mid .stateInStringEsc ps).run c).2 = .scanError
            ∧ ((mid .stateInStringEsc ps).run c).1.err ≠ none := by
          simp only [Scanner.run, stateInStringEsc]
          simp only [isEscape] at he
          rw [if_neg he, if_neg (by simpa using hu)]
          exact ⟨rfl, by simp [Scanner.error]⟩
        rw [checkValidFrom_cons, hr.1] at h
        simp only [if_true] at h
        exact hr.2 h

/-- Inside a string literal: the closing quote, or a piece of the body and then the string
goes on. -/
theorem string_step (ps : List ParseState) (c : Char) (cs : List Char)
    (h : checkValidFrom (mid .stateInString ps) (c :: cs) = none) :
    (c = '"' ∧ checkValidFrom (mid .stateEndValue ps) cs = none
      ∧ ∀ item, tokensFrom (mid .stateInString ps) (some item) (c :: cs)
          = tokensFrom (mid .stateEndValue ps) (some (item ++ ['"'])) cs)
    ∨ ∃ x cs2, c :: cs = x ++ cs2 ∧ x ≠ [] ∧ (∀ P r, StrBody P r → StrBody P (x ++ r))
      ∧ checkValidFrom (mid .stateInString ps) cs2 = none
      ∧ ∀ item, tokensFrom (mid .stateInString ps) (some item) (c :: cs)
          = tokensFrom (mid .stateInString ps) (some (item ++ x)) cs2 := by
  by_cases hq : c = '"'
  · subst hq
    left
    have hr : (mid .stateInString ps).run '"' = (mid .stateEndValue ps, .scanContinue) := rfl
    rw [checkValidFrom_cons, hr] at h
    simp only [reduceCtorEq, if_false] at h
    refine ⟨rfl, h, ?_⟩
    intro item
    rw [tokensFrom_cons, hr]
    rfl
  · right
    by_cases hb : c = '\\'
    · subst hb
      have hr : (mid .stateInString ps).run '\\' = (mid .stateInStringEsc ps, .scanContinue) :=
        rfl
      rw [checkValidFrom_cons, hr] at h
      simp only [reduceCtorEq, if_false] at h
      obtain ⟨x, cs2, hx, hchunk, hv, ht⟩ := escape_step ps cs h
      refine ⟨'\\' :: x, cs2, by rw [hx]; rfl, by simp, fun P r hb => hchunk P r hb, hv, ?_⟩
      intro item
      rw [tokensFrom_cons, hr]
      simp only [Option.map_some']
      rw [ht]
      simp
    · by_cases hc : c.toNat < 0x20
      · exfalso
        have hr : ((mid .stateInString ps).run c).2 = .scanError
            ∧ ((mid .stateInString ps).run c).1.err ≠ none := by
          simp only [Scanner.run, stateInString]
          rw [if_neg (by simpa using hq), if_neg (by simpa using hb), if_pos (by simpa using hc)]
          exact ⟨rfl, by simp [Scanner.error]⟩
        rw [checkValidFrom_cons, hr.1] at h
        simp only [if_true] at h
        exact hr.2 h
      · have hr : (mid .stateInString ps).run c = (mid .stateInString ps, .scanContinue) := by
          simp only [Scanner.run, stateInString]
          rw [if_neg (by simpa using hq), if_neg (by simpa using hb),
            if_neg (by simpa using hc)]
        rw [checkValidFrom_cons, hr] at h
        simp only [reduceCtorEq, if_false] at h
        refine ⟨[c], cs, rfl, by simp, fun P r hb2 => .plain hq hb hc hb2, h, ?_⟩
        intro item
        rw [tokensFrom_cons, hr]
        rfl

theorem step_ok {s s1 : Scanner} {c : Char} {cs : List Char} {op : Op}
    (hr : s.run c = (s1, op)) (hop : op ≠ .scanError)
    (h : checkValidFrom s (c :: cs) = none) : checkValidFrom s1 cs = none := by
  rw [checkValidFrom_cons, hr] at h
  simpa [hop] using h

theorem step_err {s : Scanner} {c : Char} {cs : List Char}
    (hr : (s.run c).2 = .scanError ∧ (s.run c).1.err ≠ none)
    (h : checkValidFrom s (c :: cs) = none) : False := by
  rw [checkValidFrom_cons, hr.1] at h
  simp only [if_true] at h
  exact hr.2 h

theorem phase_eof (ph : Phase) : checkValidFrom ph.scanner [] ≠ none := by
  cases ph <;> exact eof_ne_none _ rfl rfl

theorem literal_bad (m : GoMap) (k : String) (c : Char) (x : List Char) (rest : List Token)
    (hn : c ≠ 'n') (hq : c ≠ '"') :
    (object m none (some k) 0 (.literal (c :: x) :: rest)).2 ≠ none := by
  have h : (literalStoreString (c :: x) none).2
      = some (.jsonUnmarshalTypeError (literalKind (c :: x)) "string") := by
    unfold literalStoreString
    split
    · next heq => simp only [List.head?_cons, Option.some.injEq] at heq; exact absurd heq hn
    · next heq => simp only [List.head?_cons, Option.some.injEq] at heq; exact absurd heq hq
    · rfl
  rw [object]
  simp only [h]
  exact object_saved _ _ _ _ _

theorem literal_string (m : GoMap) (k : String) (item : List Char) (ts : List Token)
    (h : item.head? = some '"') :
    object m none (some k) 0 (.literal item :: ts)
      = object (m.set k (unquote item)) none none 0 ts := by
  rw [object]
  simp only [literalStoreString, h]

theorem object_objectKey (m : GoMap) (saved : Option GoError) (key : Option String)
    (ts : List Token) :
    object m saved key 0 (.objectKey :: ts) = object m saved key 0 ts := by
  rw [object] <;> intros <;> simp_all

theorem object_objectValue (m : GoMap) (saved : Option GoError) (key : Option String)
    (ts : List Token) :
    object m saved key 0 (.objectValue :: ts) = object m saved key 0 ts := by
  rw [object] <;> intros <;> simp_all

theorem head_append (item x : List Char) (c : Char) (h : item.head? = some c) :
    (item ++ x).head? = some c := by
  cases item with
  | nil => cases h
  | cons a t => simpa using h

theorem inObject (n : Nat) : ∀ (l : List Char), l.length ≤ n →
    ∀ (ph : Phase) (lit : Option (List Char)) (D : List Token → GoMap × Option GoError),
      ph.dec lit D → checkValidFrom ph.scanner l = none →
      (D (tokensFrom ph.scanner lit l)).2 = none → ∃ k, ph.rest k l := by
  induction n with
  | zero =>
    intro l hl ph lit D _ hv _
    have : l = [] := List.length_eq_zero.mp (Nat.le_zero.mp hl)
    subst this
    exact absurd hv (phase_eof ph)
  | succ n ih =>
    intro l hl ph lit D hdec hv hd
    cases l with
    | nil => exact absurd hv (phase_eof ph)
    | cons c cs =>
      have hcs : cs.length ≤ n := by simpa using hl
      cases ph with
      | key =>
        obtain ⟨m, item, rfl, rfl⟩ := hdec
        simp only [Phase.scanner, Phase.rest] at hv hd ⊢
        rcases string_step _ c cs hv with ⟨hq, hv1, ht⟩ | ⟨x, cs2, hx, hne, hchunk, hv1, ht⟩
        · subst hq
          rw [ht] at hd
          obtain ⟨k, hk⟩ := ih cs hcs .afterKey (some (item ++ ['"'])) _
            ⟨m, unquote (item ++ ['"']), fun ts => by simp [flush, object]⟩ hv1 hd
          exact ⟨k, .close hk⟩
        · rw [ht] at hd
          have hlen : cs2.length ≤ n := by
            have h1 := congrArg List.length hx
            have h2 : 0 < x.length := List.length_pos.mpr hne
            simp only [List.length_cons, List.length_append] at h1
            omega
          obtain ⟨k, hk⟩ := ih cs2 hlen .key (some (item ++ x)) _ ⟨m, _, rfl, rfl⟩ hv1 hd
          rw [hx]
          exact ⟨k, hchunk _ _ hk⟩
      | afterKey =>
        obtain ⟨m, k, hD⟩ := hdec
        simp only [Phase.scanner, Phase.rest] at hv hd ⊢
        by_cases hs : isSpace c = true
        · have hr : (mid .stateEndValue [.parseObjectKey]).run c
              = (mid .stateEndValue [.parseObjectKey], .scanSkipSpace) := by
            simp only [Scanner.run, stateEndValue, hs, if_true]
          have hv1 := step_ok hr (by simp) hv
          rw [tokensFrom_cons, hr] at hd
          simp only at hd
          rw [hD] at hd
          obtain ⟨j, hj⟩ := ih cs hcs .afterKey none _ ⟨m, k, fun ts => rfl⟩ hv1 hd
          exact ⟨j, .space hs hj⟩
        · by_cases hc : c = ':'
          · subst hc
            have hr : (mid .stateEndValue [.parseObjectKey]).run ':'
                = (mid .stateBeginValue [.parseObjectValue], .scanObjectKey) := rfl
            have hv1 := step_ok hr (by simp) hv
            rw [tokensFrom_cons, hr] at hd
            simp only at hd
            rw [hD, object_objectKey] at hd
            obtain ⟨j, hj⟩ := ih cs hcs .beforeValue none _ ⟨rfl, m, k, rfl⟩ hv1 hd
            exact ⟨j, .here ⟨cs, rfl, hj⟩⟩
          · exfalso
            refine step_err ?_ hv
            simp only [Scanner.run, stateEndValue, hs]
            rw [if_neg (by simp), if_neg (by simpa using hc)]
            exact ⟨rfl, by simp [Scanner.error]⟩
      | beforeValue =>
        obtain ⟨rfl, m, k, rfl⟩ := hdec
        simp only [Phase.scanner, Phase.rest] at hv hd ⊢
        by_cases hs : isSpace c = true
        · have hr : (mid .stateBeginValue [.parseObjectValue]).run c
              = (mid .stateBeginValue [.parseObjectValue], .scanSkipSpace) := by
            simp only [Scanner.run, stateBeginValue, hs, if_true]
          have hv1 := step_ok hr (by simp) hv
          rw [tokensFrom_cons, hr] at hd
          obtain ⟨j, hj⟩ := ih cs hcs .beforeValue none _ ⟨rfl, m, k, rfl⟩ hv1 hd
          exact ⟨j, .space hs hj⟩
        · by_cases hq : c = '"'
          · subst hq
            have hr : (mid .stateBeginValue [.parseObjectValue]).run '"'
                = (mid .stateInString [.parseObjectValue], .scanBeginLiteral) := rfl
            have hv1 := step_ok hr (by simp) hv
            rw [tokensFrom_cons, hr] at hd
            obtain ⟨j, hj⟩ := ih cs hcs .valueString (some ['"']) _
              ⟨m, k, _, rfl, rfl, rfl⟩ hv1 hd
            exact ⟨j, .here (.inl ⟨cs, rfl, hj⟩)⟩
          · by_cases hn : c = 'n'
            · subst hn
              have hr : (mid .stateBeginValue [.parseObjectValue]).run 'n'
                  = (mid .stateN [.parseObjectValue], .scanBeginLiteral) := rfl
              have hv1 := step_ok hr (by simp) hv
              rw [tokensFrom_cons, hr] at hd
              obtain ⟨l1, hl1, h1, t1⟩ := literal_step .stateN .stateNu 'u'
                "in literal null (expecting 'u')" _ (fun _ => rfl) (by decide) cs hv1
              obtain ⟨l2, hl2, h2, t2⟩ := literal_step .stateNu .stateNul 'l'
                "in literal null (expecting 'l')" _ (fun _ => rfl) (by decide) l1 h1
              obtain ⟨l3, hl3, h3, t3⟩ := literal_step .stateNul .stateEndValue 'l'
                "in literal null (expecting 'l')" _ (fun _ => rfl) (by decide) l2 h2
              subst hl1 hl2 hl3
              simp only [flush, List.nil_append] at hd
              rw [t1, t2, t3] at hd
              have hlen : l3.length ≤ n := by
                simp only [List.length_cons] at hcs
                omega
              obtain ⟨j, hj⟩ := ih l3 hlen .afterValue (some ['n', 'u', 'l', 'l']) _
                ⟨m.set k "", fun ts => by simp [flush, object, literalStoreString]⟩ h3 hd
              exact ⟨j, .here (.inr ⟨rfl, l3, rfl, hj⟩)⟩
            · exfalso
              by_cases hbo : c = '{'
              · subst hbo
                have hr : (mid .stateBeginValue [.parseObjectValue]).run '{'
                    = (mid .stateBeginStringOrEmpty [.parseObjectKey, .parseObjectValue],
                        .scanBeginObject) := rfl
                rw [tokensFrom_cons, hr] at hd
                simp only [flush, List.nil_append] at hd
                rw [object] at hd
                exact object_saved _ _ _ _ _ hd
              · by_cases hba : c = '['
                · subst hba
                  have hr : (mid .stateBeginValue [.parseObjectValue]).run '['
                      = (mid .stateBeginValueOrEmpty [.parseArrayValue, .parseObjectValue],
                          .scanBeginArray) := rfl
                  rw [tokensFrom_cons, hr] at hd
                  simp only [flush, List.nil_append] at hd
                  rw [object] at hd
                  exact object_saved _ _ _ _ _ hd
                · have hcl : (∃ s1, (mid .stateBeginValue [.parseObjectValue]).run c
                        = (s1, .scanBeginLiteral))
                      ∨ (((mid .stateBeginValue [.parseObjectValue]).run c).2 = .scanError
                        ∧ ((mid .stateBeginValue [.parseObjectValue]).run c).1.err ≠ none) := by
                    simp only [Scanner.run, stateBeginValue, hs]
                    rw [if_neg (by simp), if_neg (by simpa using hbo),
                      if_neg (by simpa using hba), if_neg (by simpa using hq)]
                    split_ifs <;> first
                      | exact .inl ⟨_, rfl⟩
                      | exact .inr ⟨rfl, by simp [Scanner.error]⟩
                  rcases hcl with ⟨s1, hr⟩ | herr
                  · rw [tokensFrom_cons, hr] at hd
                    simp only [flush, List.nil_append] at hd
                    obtain ⟨x, rest, hx⟩ := tokensFrom_some cs s1 [c]
                    rw [hx] at hd
                    exact literal_bad m k c x rest hn hq hd
                  · exact step_err herr hv
      | valueString =>
        obtain ⟨m, k, item, rfl, hhead, rfl⟩ := hdec
        simp only [Phase.scanner, Phase.rest] at hv hd ⊢
        rcases string_step _ c cs hv with ⟨hq, hv1, ht⟩ | ⟨x, cs2, hx, hne, hchunk, hv1, ht⟩
        · subst hq
          rw [ht] at hd
          obtain ⟨j, hj⟩ := ih cs hcs .afterValue (some (item ++ ['"'])) _
            ⟨m.set k (unquote (item ++ ['"'])), fun ts => by
              simp only [flush, List.singleton_append]
              exact literal_string m k _ ts (head_append _ _ _ hhead)⟩ hv1 hd
          exact ⟨j, .close hj⟩
        · rw [ht] at hd
          have hlen : cs2.length ≤ n := by
            have h1 := congrArg List.length hx
            have h2 : 0 < x.length := List.length_pos.mpr hne
            simp only [List.length_cons, List.length_append] at h1
            omega
          obtain ⟨j, hj⟩ := ih cs2 hlen .valueString (some (item ++ x)) _
            ⟨m, k, _, rfl, head_append _ _ _ hhead, rfl⟩ hv1 hd
          rw [hx]
          exact ⟨j, hchunk _ _ hj⟩
      | afterValue =>
        obtain ⟨m, hD⟩ := hdec
        simp only [Phase.scanner, Phase.rest] at hv hd ⊢
        by_cases hs : isSpace c = true
        · have hr : (mid .stateEndValue [.parseObjectValue]).run c
              = (mid .stateEndValue [.parseObjectValue], .scanSkipSpace) := by
            simp only [Scanner.run, stateEndValue, hs, if_true]
          have hv1 := step_ok hr (by simp) hv
          rw [tokensFrom_cons, hr] at hd
          simp only at hd
          rw [hD] at hd
          obtain ⟨j, hj⟩ := ih cs hcs .afterValue none _ ⟨m, fun ts => rfl⟩ hv1 hd
          exact ⟨j, .space hs hj⟩
        · by_cases hc : c = ','
          · subst hc
            have hr : (mid .stateEndValue [.parseObjectValue]).run ','
                = (mid .stateBeginString [.parseObjectKey], .scanObjectValue) := rfl
            have hv1 := step_ok hr (by simp) hv
            rw [tokensFrom_cons, hr] at hd
            simp only at hd
            rw [hD, object_objectValue] at hd
            obtain ⟨j, hj⟩ := ih cs hcs .nextKey none _ ⟨rfl, m, rfl⟩ hv1 hd
            exact ⟨j + 1, .here ⟨cs, rfl, hj⟩⟩
          · by_cases hb : c = '}'
            · subst hb
              have hr : (mid .stateEndValue [.parseObjectValue]).run '}'
                  = (atEnd, .scanEndObject) := rfl
              have hv1 := step_ok hr (by simp) hv
              exact ⟨0, .here ⟨cs, rfl, atEnd_ws cs hv1⟩⟩
            · exfalso
              refine step_err ?_ hv
              simp only [Scanner.run, stateEndValue, hs]
              rw [if_neg (by simp), if_neg (by simpa using hc), if_neg (by simpa using hb)]
              exact ⟨rfl, by simp [Scanner.error]⟩
      | nextKey =>
        obtain ⟨rfl, m, rfl⟩ := hdec
        simp only [Phase.scanner, Phase.rest] at hv hd ⊢
        by_cases hs : isSpace c = true
        · have hr : (mid .stateBeginString [.parseObjectKey]).run c
              = (mid .stateBeginString [.parseObjectKey], .scanSkipSpace) := by
            simp only [Scanner.run, stateBeginString, hs, if_true]
          have hv1 := step_ok hr (by simp) hv
          rw [tokensFrom_cons, hr] at hd
          obtain ⟨j, hj⟩ := ih cs hcs .nextKey none _ ⟨rfl, m, rfl⟩ hv1 hd
          exact ⟨j, .space hs hj⟩
        · by_cases hq : c = '"'
          · subst hq
            have hr : (mid .stateBeginString [.parseObjectKey]).run '"'
                = (mid .stateInString [.parseObjectKey], .scanBeginLiteral) := rfl
            have hv1 := step_ok hr (by simp) hv
            rw [tokensFrom_cons, hr] at hd
            obtain ⟨j, hj⟩ := ih cs hcs .key (some ['"']) _ ⟨m, _, rfl, rfl⟩ hv1 hd
            exact ⟨j, .here ⟨cs, rfl, hj⟩⟩
          · exfalso
            refine step_err ?_ hv
            simp only [Scanner.run, stateBeginString, hs]
            rw [if_neg (by simp), if_neg (by simpa using hq)]
            exact ⟨rfl, by simp [Scanner.error]⟩

/-- After the top-level value only white space may follow. -/
theorem afterTop_ws (l : List Char) (h : checkValidFrom (mid .stateEndValue []) l = none) :
    Ws End l := by
  cases l with
  | nil => exact .here rfl
  | cons c cs =>
    by_cases hs : isSpace c = true
    · have hr : (mid .stateEndValue []).run c = (atEnd, .scanEnd) := by
        simp only [Scanner.run, stateEndValue, stateEndTop, hs]
        rfl
      exact .space hs (atEnd_ws cs (step_ok hr (by simp) h))
    · exfalso
      have hr : (mid .stateEndValue []).run c
          = ((atEnd.error c "after top-level value").1, .scanEnd) := by
        simp only [Scanner.run, stateEndValue, stateEndTop, hs]
        rfl
      exact checkValidFrom_failed cs _ rfl (by simp [Scanner.error]) (step_ok hr (by simp) h)

/-- After the opening brace of the top-level object. -/
theorem objectStart (l : List Char) (m : GoMap)
    (hv : checkValidFrom (mid .stateBeginStringOrEmpty [.parseObjectKey]) l = none)
    (hd : (object m none none 0
      (tokensFrom (mid .stateBeginStringOrEmpty [.parseObjectKey]) none l)).2 = none) :
    Ws (Lit ['}'] (Ws End)) l ∨ ∃ n, Member true (MemberTail true (Ws End) n) l := by
  induction l with
  | nil => exact absurd hv (eof_ne_none _ rfl rfl)
  | cons c cs ih =>
    by_cases hs : isSpace c = true
    · have hr : (mid .stateBeginStringOrEmpty [.parseObjectKey]).run c
          = (mid .stateBeginStringOrEmpty [.parseObjectKey], .scanSkipSpace) := by
        simp only [Scanner.run, stateBeginStringOrEmpty, hs, if_true]
      have hv1 := step_ok hr (by simp) hv
      rw [tokensFrom_cons, hr] at hd
      rcases ih hv1 hd with h | ⟨n, h⟩
      · exact .inl (.space hs h)
      · exact .inr ⟨n, .space hs h⟩
    · by_cases hb : c = '}'
      · subst hb
        have hr : (mid .stateBeginStringOrEmpty [.parseObjectKey]).run '}'
            = (atEnd, .scanEndObject) := rfl
        exact .inl (.here ⟨cs, rfl, atEnd_ws cs (step_ok hr (by simp) hv)⟩)
      · by_cases hq : c = '"'
        · subst hq
          have hr : (mid .stateBeginStringOrEmpty [.parseObjectKey]).run '"'
              = (mid .stateInString [.parseObjectKey], .scanBeginLiteral) := rfl
          have hv1 := step_ok hr (by simp) hv
          rw [tokensFrom_cons, hr] at hd
          obtain ⟨n, hn⟩ := inObject cs.length cs (le_refl _) .key (some ['"']) _
            ⟨m, _, rfl, rfl⟩ hv1 hd
          exact .inr ⟨n, .here ⟨cs, rfl, hn⟩⟩
        · exfalso
          refine step_err ?_ hv
          simp only [Scanner.run, stateBeginStringOrEmpty, stateBeginString, hs]
          rw [if_neg (by simp), if_neg (by simpa using hb), if_neg (by simp),
            if_neg (by simpa using hq)]
          exact ⟨rfl, by simp [Scanner.error]⟩

theorem unmarshal_literal (c : Char) (x : List Char) (rest : List Token) (hn : c ≠ 'n') :
    (unmarshal (.literal (c :: x) :: rest)).2 ≠ none := by
  simp only [unmarshal, List.head?_cons]
  split
  · next heq => simp only [Option.some.injEq] at heq; exact absurd heq hn
  · simp

/-- A text that `checkValid` and the decoder accept is an object of strings and nulls, or
`null`. -/
theorem top (l : List Char) (hv : checkValidFrom Scanner.reset l = none)
    (hd : (unmarshal (tokensFrom Scanner.reset none l)).2 = none) : Text true l := by
  induction l with
  | nil => exact absurd hv (eof_ne_none _ rfl rfl)
  | cons c cs ih =>
    by_cases hs : isSpace c = true
    · have hr : Scanner.reset.run c = (Scanner.reset, .scanSkipSpace) := by
        simp only [Scanner.run, Scanner.reset, stateBeginValue, hs, if_true]
      have hv1 := step_ok hr (by simp) hv
      rw [tokensFrom_cons, hr] at hd
      exact .space hs (ih hv1 hd)
    · by_cases hbo : c = '{'
      · subst hbo
        have hr : Scanner.reset.run '{'
            = (mid .stateBeginStringOrEmpty [.parseObjectKey], .scanBeginObject) := rfl
        have hv1 := step_ok hr (by simp) hv
        rw [tokensFrom_cons, hr] at hd
        exact .here (.inl ⟨cs, rfl, objectStart cs [] hv1 hd⟩)
      · by_cases hn : c = 'n'
        · subst hn
          have hr : Scanner.reset.run 'n' = (mid .stateN [], .scanBeginLiteral) := rfl
          have hv1 := step_ok hr (by simp) hv
          obtain ⟨l1, hl1, h1, _⟩ := literal_step .stateN .stateNu 'u'
            "in literal null (expecting 'u')" _ (fun _ => rfl) (by decide) cs hv1
          obtain ⟨l2, hl2, h2, _⟩ := literal_step .stateNu .stateNul 'l'
            "in literal null (expecting 'l')" _ (fun _ => rfl) (by decide) l1 h1
          obtain ⟨l3, hl3, h3, _⟩ := literal_step .stateNul .stateEndValue 'l'
            "in literal null (expecting 'l')" _ (fun _ => rfl) (by decide) l2 h2
          subst hl1 hl2 hl3
          exact .here (.inr ⟨rfl, l3, rfl, afterTop_ws l3 h3⟩)
        · exfalso
          by_cases hba : c = '['
          · subst hba
            have hr : Scanner.reset.run '['
                = (mid .stateBeginValueOrEmpty [.parseArrayValue], .scanBeginArray) := rfl
            rw [tokensFrom_cons, hr] at hd
            simp [flush, unmarshal] at hd
          · have hcl : (∃ s1, Scanner.reset.run c = (s1, .scanBeginLiteral))
                ∨ ((Scanner.reset.run c).2 = .scanError
                  ∧ (Scanner.reset.run c).1.err ≠ none) := by
              simp only [Scanner.run, Scanner.reset, stateBeginValue, hs]
              rw [if_neg (by simp), if_neg (by simpa using hbo), if_neg (by simpa using hba)]
              split_ifs <;> first
                | exact .inl ⟨_, rfl⟩
                | exact .inr ⟨rfl, by simp [Scanner.error]⟩
            rcases hcl with ⟨s1, hr⟩ | herr
            · rw [tokensFrom_cons, hr] at hd
              simp only [flush, List.nil_append] at hd
              obtain ⟨x, rest, hx⟩ := tokensFrom_some cs s1 [c]
              rw [hx] at hd
              exact unmarshal_literal c x rest hn hd
            · exact step_err herr hv

theorem acc_continue {s t : Scanner} {c : Char} {cs : List Char}
    {lit : Option (List Char)} {D : List Token → GoMap × Option GoError}
    (hr : s.run c = (t, .scanContinue))
    (h : Acc t (lit.map (fun item => item ++ [c])) D cs) : Acc s lit D (c :: cs) := by
  constructor
  · rw [checkValidFrom_cons, hr]
    simpa using h.1
  · rw [tokensFrom_cons, hr]
    exact h.2

theorem acc_space {s t : Scanner} {c : Char} {cs : List Char}
    {lit : Option (List Char)} {D F : List Token → GoMap × Option GoError}
    (hr : s.run c = (t, .scanSkipSpace)) (hF : Eff lit D F)
    (h : Acc t none F cs) : Acc s lit D (c :: cs) := by
  constructor
  · rw [checkValidFrom_cons, hr]
    simpa using h.1
  · rw [tokensFrom_cons, hr]
    simp only
    rw [hF]
    exact h.2

theorem acc_begin {s t : Scanner} {c : Char} {cs : List Char}
    {lit : Option (List Char)} {D F : List Token → GoMap × Option GoError}
    (hr : s.run c = (t, .scanBeginLiteral)) (hF : Eff lit D F)
    (h : Acc t (some [c]) F cs) : Acc s lit D (c :: cs) := by
  constructor
  · rw [checkValidFrom_cons, hr]
    simpa using h.1
  · rw [tokensFrom_cons, hr]
    simp only
    rw [hF]
    exact h.2

theorem eff_none (F : List Token → GoMap × Option GoError) : Eff none F F :=
  fun _ => rfl

/-- White space is skipped in a state that skips it. -/
theorem ws_acc (s : Scanner) (F : List Token → GoMap × Option GoError) (P : List Char → Prop)
    (hsp : ∀ c, isSpace c = true → s.run c = (s, .scanSkipSpace))
    (hP : ∀ r lit D, Eff lit D F → P r → Acc s lit D r)
    (l : List Char) (h : Ws P l) : ∀ lit D, Eff lit D F → Acc s lit D l := by
  induction h with
  | here hp => exact fun lit D hF => hP _ lit D hF hp
  | space hs _ ih => exact fun lit D hF => acc_space (hsp _ hs) hF (ih none F (eff_none F))

theorem atEnd_acc (l : List Char) (h : Ws End l) : checkValidFrom atEnd l = none := by
  induction h with
  | here hp =>
    rw [hp]
    rfl
  | space hs _ ih =>
    rw [checkValidFrom_cons, run_atEnd, if_pos hs]
    simpa using ih

theorem afterTop_acc (l : List Char) (h : Ws End l) :
    checkValidFrom (mid .stateEndValue []) l = none := by
  cases h with
  | here hp =>
    rw [hp]
    rfl
  | space hs h1 =>
    rename_i c cs
    have hr : (mid .stateEndValue []).run c = (atEnd, .scanEnd) := by
      simp only [Scanner.run, stateEndValue, stateEndTop, hs]
      rfl
    rw [checkValidFrom_cons, hr]
    simpa using atEnd_acc _ h1

/-- The body of a string literal is read up to the closing quote. -/
theorem strBody_acc (ps : List ParseState) (D : List Token → GoMap × Option GoError)
    (P : List Char → Prop)
    (hP : ∀ r item, item.head? = some '"' → P r → Acc (mid .stateEndValue ps) (some item) D r)
    (l : List Char) (h : StrBody P l) :
    ∀ item, item.head? = some '"' → Acc (mid .stateInString ps) (some item) D l := by
  induction h with
  | close hp =>
    intro item hi
    exact acc_continue (t := mid .stateEndValue ps) rfl (hP _ _ (head_append _ _ _ hi) hp)
  | plain hq hb hc _ ih =>
    intro item hi
    refine acc_continue (t := mid .stateInString ps) ?_ (ih _ (head_append _ _ _ hi))
    simp only [Scanner.run, stateInString]
    rw [if_neg (by simpa using hq), if_neg (by simpa using hb), if_neg (by simpa using hc)]
  | escape he _ ih =>
    intro item hi
    refine acc_continue (t := mid .stateInStringEsc ps) rfl ?_
    refine acc_continue (t := mid .stateInString ps) ?_
      (ih _ (head_append _ _ _ (head_append _ _ _ hi)))
    simp only [Scanner.run, stateInStringEsc]
    simp only [isEscape] at he
    rw [if_pos he]
  | unicode ha hb hc hd _ ih =>
    intro item hi
    refine acc_continue (t := mid .stateInStringEsc ps) rfl ?_
    refine acc_continue (t := mid .stateInStringEscU ps) rfl ?_
    refine acc_continue (t := mid .stateInStringEscU1 ps)
      (by simp only [Scanner.run, stateInStringEscHex]; rw [if_pos ha]) ?_
    refine acc_continue (t := mid .stateInStringEscU12 ps)
      (by simp only [Scanner.run, stateInStringEscHex]; rw [if_pos hb]) ?_
    refine acc_continue (t := mid .stateInStringEscU123 ps)
      (by simp only [Scanner.run, stateInStringEscHex]; rw [if_pos hc]) ?_
    refine acc_continue (t := mid .stateInString ps)
      (by simp only [Scanner.run, stateInStringEscHex]; rw [if_pos hd]) ?_
    exact ih _ (head_append _ _ _ (head_append _ _ _ (head_append _ _ _
      (head_append _ _ _ (head_append _ _ _ (head_append _ _ _ hi))))))


theorem acc_congr {s : Scanner} {lit : Option (List Char)}
    {D F : List Token → GoMap × Option GoError} {l : List Char}
    (hF : ∀ ts, D ts = F ts) (h : Acc s lit F l) : Acc s lit D l :=
  ⟨h.1, by rw [hF]; exact h.2⟩

theorem acc_objectKey {s t : Scanner} {c : Char} {cs : List Char}
    {lit : Option (List Char)} {D F : List Token → GoMap × Option GoError}
    (hr : s.run c = (t, .scanObjectKey)) (hF : Eff lit D F)
    (h : Acc t none (fun ts => F (.objectKey :: ts)) cs) : Acc s lit D (c :: cs) := by
  constructor
  · rw [checkValidFrom_cons, hr]
    simpa using h.1
  · rw [tokensFrom_cons, hr]
    simp only
    rw [hF]
    exact h.2

theorem acc_objectValue {s t : Scanner} {c : Char} {cs : List Char}
    {lit : Option (List Char)} {D F : List Token → GoMap × Option GoError}
    (hr : s.run c = (t, .scanObjectValue)) (hF : Eff lit D F)
    (h : Acc t none (fun ts => F (.objectValue :: ts)) cs) : Acc s lit D (c :: cs) := by
  constructor
  · rw [checkValidFrom_cons, hr]
    simpa using h.1
  · rw [tokensFrom_cons, hr]
    simp only
    rw [hF]
    exact h.2

/-- The closing brace of the top-level object and the white space after it are accepted. -/
theorem close_acc (s : Scanner) (hr : s.run '}' = (atEnd, .scanEndObject))
    (lit : Option (List Char)) (D : List Token → GoMap × Option GoError) (m : GoMap)
    (key : Option String) (hF : Eff lit D (object m none key 0)) (r : List Char)
    (h : Ws End r) : Acc s lit D ('}' :: r) := by
  constructor
  · rw [checkValidFrom_cons, hr]
    simpa using atEnd_acc r h
  · rw [tokensFrom_cons, hr]
    simp only
    rw [hF, object]

/-- One member is accepted from a state `s0` that awaits a key, when what follows the member
is accepted after its value. -/
theorem member_acc (s0 : Scanner)
    (hsp : ∀ c, isSpace c = true → s0.run c = (s0, .scanSkipSpace))
    (hq : s0.run '"' = (mid .stateInString [.parseObjectKey], .scanBeginLiteral))
    (P : List Char → Prop)
    (hP : ∀ r lit D m, Eff lit D (object m none none 0) → P r →
      Acc (mid .stateEndValue [.parseObjectValue]) lit D r)
    (l : List Char) (h : Member true P l) (m : GoMap) :
    Acc s0 none (object m none none 0) l := by
  refine ws_acc s0 (object m none none 0) _ hsp ?_ l h none _ (eff_none _)
  rintro r lit D hF ⟨r1, rfl, hbody⟩
  refine acc_begin hq hF ?_
  refine strBody_acc _ _ _ ?_ r1 hbody ['"'] rfl
  intro r2 item _ hws
  refine ws_acc (mid .stateEndValue [.parseObjectKey]) (object m none (some (unquote item)) 0) _
    (fun c hs => by simp only [Scanner.run, stateEndValue, hs, if_true]) ?_ r2 hws (some item) _
    (fun ts => by simp [flush, object])
  rintro r3 lit3 D3 hF3 ⟨r4, rfl, hval⟩
  refine acc_objectKey (t := mid .stateBeginValue [.parseObjectValue]) rfl hF3 ?_
  refine acc_congr (F := object m none (some (unquote item)) 0)
    (fun ts => object_objectKey _ _ _ _) ?_
  refine ws_acc (mid .stateBeginValue [.parseObjectValue]) _ _
    (fun c hs => by simp only [Scanner.run, stateBeginValue, hs, if_true]) ?_ r4 hval none _
    (eff_none _)
  rintro r5 lit5 D5 hF5 (⟨r6, rfl, hbody2⟩ | ⟨_, r6, rfl, hrest⟩)
  · refine acc_begin (t := mid .stateInString [.parseObjectValue]) rfl hF5 ?_
    refine strBody_acc _ _ _ ?_ r6 hbody2 ['"'] rfl
    intro r7 item2 hi2 hws2
    exact ws_acc (mid .stateEndValue [.parseObjectValue])
      (object (m.set (unquote item) (unquote item2)) none none 0) _
      (fun c hs => by simp only [Scanner.run, stateEndValue, hs, if_true])
      (fun r lit D hF hp => hP r lit D _ hF hp) r7 hws2 (some item2) _
      (fun ts => by
        simp only [flush, List.singleton_append]
        exact literal_string _ _ _ ts hi2)
  · refine acc_begin (t := mid .stateN [.parseObjectValue]) rfl hF5 ?_
    refine acc_continue (t := mid .stateNu [.parseObjectValue]) rfl ?_
    refine acc_continue (t := mid .stateNul [.parseObjectValue]) rfl ?_
    refine acc_continue (t := mid .stateEndValue [.parseObjectValue]) rfl ?_
    exact ws_acc (mid .stateEndValue [.parseObjectValue])
      (object (m.set (unquote item) "") none none 0) _
      (fun c hs => by simp only [Scanner.run, stateEndValue, hs, if_true])
      (fun r lit D hF hp => hP r lit D _ hF hp) r6 hrest _ _
      (fun ts => by simp [flush, object, literalStoreString])

/-- What follows a member value is accepted: the closing brace and the end of the text, or a
comma and the next member. -/
theorem tail_acc (n : Nat) : ∀ (r : List Char) (lit : Option (List Char))
    (D : List Token → GoMap × Option GoError) (m : GoMap),
    Eff lit D (object m none none 0) → MemberTail true (Ws End) n r →
    Acc (mid .stateEndValue [.parseObjectValue]) lit D r := by
  induction n with
  | zero =>
    rintro r lit D m hF ⟨r1, rfl, hend⟩
    exact close_acc (mid .stateEndValue [.parseObjectValue]) rfl lit D m none hF r1 hend
  | succ n ih =>
    rintro r lit D m hF ⟨r1, rfl, hmem⟩
    refine acc_objectValue (t := mid .stateBeginString [.parseObjectKey]) rfl hF ?_
    refine acc_congr (F := object m none none 0) (fun ts => object_objectValue _ _ _ _) ?_
    exact member_acc (mid .stateBeginString [.parseObjectKey])
      (fun c hs => by simp only [Scanner.run, stateBeginString, hs, if_true]) rfl _ ih r1 hmem m

/-- Every text of the grammar is accepted by `checkValid` and by the decoder. -/
theorem text_acc (l : List Char) (h : Text true l) : Acc Scanner.reset none unmarshal l := by
  refine ws_acc Scanner.reset unmarshal _
    (fun c hs => by simp only [Scanner.run, Scanner.reset, stateBeginValue, hs, if_true])
    ?_ l h none _ (eff_none _)
  rintro r lit D hF (⟨r1, rfl, hobj⟩ | ⟨_, r1, rfl, hend⟩)
  · have hr : Scanner.reset.run '{'
        = (mid .stateBeginStringOrEmpty [.parseObjectKey], .scanBeginObject) := rfl
    have hstart : Acc (mid .stateBeginStringOrEmpty [.parseObjectKey]) none
        (object [] none none 0) r1 := by
      rcases hobj with hempty | ⟨n, hmem⟩
      · refine ws_acc _ (object [] none none 0) _
          (fun c hs => by simp only [Scanner.run, stateBeginStringOrEmpty, hs, if_true])
          ?_ r1 hempty none _ (eff_none _)
        rintro r2 lit2 D2 hF2 ⟨r3, rfl, hend⟩
        exact close_acc (mid .stateBeginStringOrEmpty [.parseObjectKey]) rfl lit2 D2 [] none
          hF2 r3 hend
      · exact member_acc (mid .stateBeginStringOrEmpty [.parseObjectKey])
          (fun c hs => by simp only [Scanner.run, stateBeginStringOrEmpty, hs, if_true])
          rfl _ (tail_acc n) r1 hmem []
    constructor
    · show checkValidFrom Scanner.reset ('{' :: r1) = none
      rw [checkValidFrom_cons, hr]
      simpa using hstart.1
    · show (D (tokensFrom Scanner.reset lit ('{' :: r1))).2 = none
      rw [tokensFrom_cons, hr]
      simp only
      rw [hF]
      exact hstart.2
  · constructor
    · show checkValidFrom Scanner.reset ('n' :: 'u' :: 'l' :: 'l' :: r1) = none
      have h1 : Scanner.reset.run 'n' = (mid .stateN [], .scanBeginLiteral) := rfl
      have h2 : (mid .stateN []).run 'u' = (mid .stateNu [], .scanContinue) := rfl
      have h3 : (mid .stateNu []).run 'l' = (mid .stateNul [], .scanContinue) := rfl
      have h4 : (mid .stateNul []).run 'l' = (mid .stateEndValue [], .scanContinue) := rfl
      rw [checkValidFrom_cons, h1]
      simp only [reduceCtorEq, if_false]
      rw [checkValidFrom_cons, h2]
      simp only [reduceCtorEq, if_false]
      rw [checkValidFrom_cons, h3]
      simp only [reduceCtorEq, if_false]
      rw [checkValidFrom_cons, h4]
      simp only [reduceCtorEq, if_false]
      exact afterTop_acc r1 hend
    · show (D (tokensFrom Scanner.reset lit ('n' :: 'u' :: 'l' :: 'l' :: r1))).2 = none
      have h1 : Scanner.reset.run 'n' = (mid .stateN [], .scanBeginLiteral) := rfl
      rw [tokensFrom_cons, h1]
      simp only
      rw [hF]
      obtain ⟨x, rest, hx⟩ := tokensFrom_some ('u' :: 'l' :: 'l' :: r1) (mid .stateN []) ['n']
      rw [hx]
      rfl

end Json

/-- Completeness of the decoder: a text `json.Unmarshal` accepts into a `map[string]string`
is `null` or an object whose member values are strings or `null`. -/
theorem jsonUnmarshal_ok_text (data : String) (m : Json.GoMap)
    (h : jsonUnmarshal data = .ok m) : Json.Text true data.toList := by
  unfold jsonUnmarshal at h
  split at h
  · cases h
  · next hv =>
    split at h
    · cases h
    · next m1 hd =>
      refine Json.top _ hv ?_
      have hd2 : Json.unmarshal (Json.tokensFrom Json.Scanner.reset none data.toList)
          = (m1, none) := hd
      rw [hd2]


/-- Soundness of the decoder: `json.Unmarshal` accepts `null` and every object whose member
values are strings or `null`. -/
theorem text_jsonUnmarshal_ok (data : String) (h : Json.Text true data.toList) :
    ∃ m, jsonUnmarshal data = .ok m := by
  obtain ⟨hv, hd⟩ := Json.text_acc _ h
  have hv1 : Json.checkValid data.toList = none := hv
  have hd1 : (Json.unmarshal (Json.tokens data.toList)).2 = none := hd
  refine ⟨(Json.unmarshal (Json.tokens data.toList)).1, ?_⟩
  unfold jsonUnmarshal
  rw [hv1]
  rcases hu : Json.unmarshal (Json.tokens data.toList) with ⟨m, e⟩
  rw [hu] at hd1
  simp only at hd1
  subst hd1
  rfl

/-! ## The handlers: what each one calls and returns -/

/-- C1: `resourcePDNSZoneUpdate` calls `client.UpdateZone` if and only if `kind` has changed.
When it has, the single call is keyed by the current identity, carries a `ZoneInfo` whose
`Kind` is the new `kind` and whose `ID`, `Name` and `Nameservers` are empty, and its result is
returned unchanged; when it has not, no call is made and the result is success. Nothing else
of the resource data (`name`, `nameservers`) enters the result. -/
theorem update_calls_iff_kind_changed {σ : Type} (client : Client σ) (d : ResourceData)
    (w : World σ) :
    resourcePDNSZoneUpdate client d w =
      (if d.HasChangeKind then
        ((client.UpdateZone d.Id ⟨"", "", d.GetKind, []⟩ w.remote).1, d,
          { remote := (client.UpdateZone d.Id ⟨"", "", d.GetKind, []⟩ w.remote).2,
            calls := w.calls ++ [Call.UpdateZone d.Id ⟨"", "", d.GetKind, []⟩] })
      else (none, d, w))
    ∧ ((resourcePDNSZoneUpdate client d w).2.2.calls
          = w.calls ++ [Call.UpdateZone d.Id ⟨"", "", d.GetKind, []⟩]
        ↔ d.state.kind ≠ d.planned.kind)
    ∧ ((resourcePDNSZoneUpdate client d w).2.2.calls = w.calls
        ↔ d.state.kind = d.planned.kind) := by
  have hk : d.HasChangeKind = true ↔ d.state.kind ≠ d.planned.kind := by
    simp [ResourceData.HasChangeKind]
  have heq : resourcePDNSZoneUpdate client d w =
      (if d.HasChangeKind then
        ((client.UpdateZone d.Id ⟨"", "", d.GetKind, []⟩ w.remote).1, d,
          { remote := (client.UpdateZone d.Id ⟨"", "", d.GetKind, []⟩ w.remote).2,
            calls := w.calls ++ [Call.UpdateZone d.Id ⟨"", "", d.GetKind, []⟩] })
      else (none, d, w)) := by
    unfold resourcePDNSZoneUpdate Client.callUpdateZone
    cases hc : d.HasChangeKind <;> simp
  refine ⟨heq, ?_, ?_⟩
  · rw [heq]
    by_cases hc : d.HasChangeKind = true
    · simp [hc, hk.mp hc]
    · have hne : ¬ d.state.kind ≠ d.planned.kind := fun h => hc (hk.mpr h)
      simp [hc, hne]
  · rw [heq]
    by_cases hc : d.HasChangeKind = true
    · simp [hc, hk.mp hc]
    · have hne : ¬ d.state.kind ≠ d.planned.kind := fun h => hc (hk.mpr h)
      simp only [hc]
      simp only [ne_eq, not_not] at hne
      simp [hne]

/-- C5: `resourcePDNSZoneExists` queries `client.ZoneExists` exactly once, with the `name` of
the resource data. When the client reports `(b, nil)` it returns `(b, nil)`, so `(false, nil)`
for a zone reported absent; when the client reports an error it returns `false` with a non-nil
error built from the client's. The returned error is nil only when the client's was. -/
theorem exists_reports_client_answer {σ : Type} (client : Client σ) (d : ResourceData)
    (w : World σ) :
    resourcePDNSZoneExists client d w =
      ((match (client.ZoneExists d.GetName w.remote).1 with
        | .ok b => (b, none)
        | .error err =>
          (false, some (.errorString ("Error checking PowerDNS Zone: " ++ err.Error)))),
        d,
        { remote := (client.ZoneExists d.GetName w.remote).2,
          calls := w.calls ++ [Call.ZoneExists d.GetName] })
    ∧ ((resourcePDNSZoneExists client d w).1.2 = none
        ↔ ∃ b, (client.ZoneExists d.GetName w.remote).1 = .ok b) := by
  unfold resourcePDNSZoneExists Client.callZoneExists
  cases h : (client.ZoneExists d.GetName w.remote).1 <;> simp [h]

/-- C6: `resourcePDNSZoneCreate` calls `client.CreateZone` exactly once, with a `ZoneInfo` of
empty `ID`, the configured `name` and `kind`, and the elements of the configured
`nameservers` set, each exactly once. On success the identity becomes the `ID` of the returned
`ZoneInfo` and nothing else changes; on failure the client's error is returned as it is and
the resource data is unchanged. -/
theorem create_sends_configuration {σ : Type} (client : Client σ) (d : ResourceData)
    (w : World σ) :
    (resourcePDNSZoneCreate client d w).1 =
      (match (client.CreateZone ⟨"", d.GetName, d.GetKind, d.GetNameservers.List⟩
          w.remote).1 with
        | .ok _ => none
        | .error err => some err)
    ∧ (resourcePDNSZoneCreate client d w).2.1 =
      (match (client.CreateZone ⟨"", d.GetName, d.GetKind, d.GetNameservers.List⟩
          w.remote).1 with
        | .ok created => { d with id := created.ID }
        | .error _ => d)
    ∧ (resourcePDNSZoneCreate client d w).2.2 =
        { remote :=
            (client.CreateZone ⟨"", d.GetName, d.GetKind, d.GetNameservers.List⟩ w.remote).2,
          calls := w.calls ++
            [Call.CreateZone ⟨"", d.GetName, d.GetKind, d.GetNameservers.List⟩] }
    ∧ (∀ x, x ∈ d.GetNameservers.elems ↔ d.GetNameservers.List.count x = 1) := by
  have hloop : d.GetNameservers.List.foldl (fun acc nameserver => acc ++ [nameserver]) []
      = d.GetNameservers.List := by
    have := foldl_append_eq_map (fun x : String => x) d.GetNameservers.List []
    simpa using this
  unfold resourcePDNSZoneCreate Client.callCreateZone
  rw [hloop]
  refine ⟨?_, ?_, ?_, ?_⟩
  · cases h : (client.CreateZone ⟨"", d.GetName, d.GetKind, d.GetNameservers.List⟩
        w.remote).1 <;> simp [h]
  · cases h : (client.CreateZone ⟨"", d.GetName, d.GetKind, d.GetNameservers.List⟩
        w.remote).1 <;> simp [h, ResourceData.SetId]
  · cases h : (client.CreateZone ⟨"", d.GetName, d.GetKind, d.GetNameservers.List⟩
        w.remote).1 <;> simp [h]
  · intro x
    unfold SchemaSet.List
    constructor
    · intro hx
      exact List.count_eq_one_of_mem d.GetNameservers.nodup hx
    · intro hx
      exact List.count_pos_iff.mp (by omega)

/-- C7: `resourcePDNSZoneRead` fetches the zone with `client.GetZone` keyed by the `name` of
the resource data. On success it writes the returned `Name` and `Kind` to `name` and `kind`
and leaves `nameservers` and the identity as they were; on failure it returns a non-nil error
whose text contains the client's and leaves the resource data unchanged. -/
theorem read_refreshes_name_and_kind {σ : Type} (client : Client σ) (d : ResourceData)
    (w : World σ) :
    (resourcePDNSZoneRead client d w).1 =
      (match (client.GetZone d.GetName w.remote).1 with
        | .ok _ => none
        | .error err => some (.errorString ("Couldn't fetch PowerDNS Zone: " ++ err.Error)))
    ∧ (resourcePDNSZoneRead client d w).2.1 =
      (match (client.GetZone d.GetName w.remote).1 with
        | .ok zoneInfo => { d with setName := some zoneInfo.Name, setKind := some zoneInfo.Kind }
        | .error _ => d)
    ∧ (resourcePDNSZoneRead client d w).2.2 =
        { remote := (client.GetZone d.GetName w.remote).2,
          calls := w.calls ++ [Call.GetZone d.GetName] }
    ∧ (match (client.GetZone d.GetName w.remote).1 with
        | .ok zoneInfo =>
          (resourcePDNSZoneRead client d w).2.1.GetName = zoneInfo.Name
          ∧ (resourcePDNSZoneRead client d w).2.1.GetKind = zoneInfo.Kind
        | .error _ => True)
    ∧ (resourcePDNSZoneRead client d w).2.1.GetNameservers = d.GetNameservers
    ∧ (resourcePDNSZoneRead client d w).2.1.Id = d.Id := by
  unfold resourcePDNSZoneRead Client.callGetZone
  cases h : (client.GetZone d.GetName w.remote).1 <;> simp only [h] <;>
    simp [ResourceData.SetName, ResourceData.SetKind, ResourceData.GetName,
      ResourceData.GetKind, ResourceData.GetNameservers, ResourceData.Id]

/-- C2: when the import input decodes to a mapping whose `name` is `n`, `client.GetZone n`
returns the zone `z` and `client.ListRecordsInRRSet n n "NS"` returns the records `rs`,
`resourcePDNSZoneImport` makes exactly these two calls and returns, without error, exactly one
resource data whose `name` is `z.Name`, whose `kind` is `z.Kind`, whose `nameservers` is the
set of the `Content` fields of `rs`, and whose identity is `n`. -/
theorem import_populates_from_remote {σ : Type} (client : Client σ) (d : ResourceData)
    (w : World σ) (m : Json.GoMap) (n : String) (z : ZoneInfo) (rs : List Record) (s1 s2 : σ)
    (hdec : jsonUnmarshal d.Id = .ok m) (hname : m.get "name" = some n)
    (hget : client.GetZone n w.remote = (.ok z, s1))
    (hlist : client.ListRecordsInRRSet n n "NS" s1 = (.ok rs, s2)) :
    ∃ d1, resourcePDNSZoneImport client d w =
        (([d1], none),
          { remote := s2,
            calls := w.calls ++ [Call.GetZone n, Call.ListRecordsInRRSet n n "NS"] })
      ∧ d1.GetName = z.Name ∧ d1.GetKind = z.Kind
      ∧ (∀ x, x ∈ d1.GetNameservers.List ↔ x ∈ rs.map Record.Content)
      ∧ d1.Id = n := by
  refine ⟨(((d.SetName z.Name).SetKind z.Kind).SetNameservers
    (rs.map Record.Content)).SetId n, ?_, rfl, rfl, ?_, rfl⟩
  · unfold resourcePDNSZoneImport
    rw [hdec]
    simp only [hname, Client.callGetZone, hget, Client.callListRecordsInRRSet, hlist]
    rw [foldl_append_eq_map]
    simp
  · intro x
    simp [ResourceData.GetNameservers, ResourceData.SetId, ResourceData.SetNameservers,
      SchemaSet.List, SchemaSet.ofList]

/-- C2, the instance of the specification: importing `{"name":"example.com."}` from a remote
holding the zone `example.com.` of kind `Native` with the one nameserver `ns1.example.com.`
gives name `example.com.`, kind `Native`, nameservers `{ns1.example.com.}` and identity
`example.com.`. -/
theorem import_populates_from_remote_witness :
    jsonUnmarshal (importData "\x7b\"name\":\"example.com.\"\x7d").Id
        = .ok [("name", "example.com.")]
    ∧ ∃ d1, resourcePDNSZoneImport (memClient id)
          (importData "\x7b\"name\":\"example.com.\"\x7d")
          { remote := [⟨"example.com.", "example.com.", "Native", ["ns1.example.com."]⟩],
            calls := [] } =
        (([d1], none),
          { remote := [⟨"example.com.", "example.com.", "Native", ["ns1.example.com."]⟩],
            calls := [] ++ [Call.GetZone "example.com.",
              Call.ListRecordsInRRSet "example.com." "example.com." "NS"] })
      ∧ d1.GetName = "example.com." ∧ d1.GetKind = "Native"
      ∧ (∀ x, x ∈ d1.GetNameservers.List ↔
          x ∈ [Record.mk "ns1.example.com."].map Record.Content)
      ∧ d1.Id = "example.com." :=
  ⟨rfl,
    import_populates_from_remote (memClient id)
      (importData "\x7b\"name\":\"example.com.\"\x7d")
      { remote := [⟨"example.com.", "example.com.", "Native", ["ns1.example.com."]⟩],
        calls := [] }
      [("name", "example.com.")] "example.com."
      ⟨"example.com.", "example.com.", "Native", ["ns1.example.com."]⟩
      [Record.mk "ns1.example.com."] _ _ rfl rfl rfl rfl⟩

/-- The text of the error that wraps a failed fetch never is the missing-field text. -/
theorem fetch_text_ne_missing (t : String) :
    "couldn't fetch zone " ++ t ≠ "missing zone name in input data" := by
  intro h
  have h1 := congrArg String.data h
  rw [String.data_append] at h1
  have h2 := congrArg List.head? h1
  simp at h2

/-- A text of the grammar begins, after white space, with an opening brace or, when `nulls`
is set, with the `n` of `null`. -/
theorem text_firstByte (nulls : Bool) (l : List Char) (h : Json.Text nulls l) :
    Json.firstByte l = some '{' ∨ (nulls = true ∧ Json.firstByte l = some 'n') := by
  unfold Json.Text at h
  induction h with
  | here hp =>
    rcases hp with ⟨r, rfl, _⟩ | ⟨hn, r, rfl, _⟩
    · exact .inl rfl
    · exact .inr ⟨hn, rfl⟩
  | space hs _ ih =>
    have hskip : ∀ (c : Char) (r : List Char), Json.isSpace c = true →
        Json.firstByte (c :: r) = Json.firstByte r := by
      intro c r hc
      simp [Json.firstByte, List.find?, hc]
    rw [hskip _ _ hs]
    exact ih

/-- A text `json.Unmarshal` rejects is not a text of the grammar. -/
theorem not_text_of_error (data : String) (e : GoError) (h : jsonUnmarshal data = .error e) :
    ¬ Json.Text true data.toList := by
  intro ht
  obtain ⟨m, hm⟩ := text_jsonUnmarshal_ok data ht
  rw [h] at hm
  cases hm

/-- For an input of the grammar, with string or null values, the importer does not fail with
a parse error: a parse error is returned only for inputs outside the grammar. -/
theorem import_of_text_no_parse_error {σ : Type} (client : Client σ) (d : ResourceData)
    (w : World σ) (h : Json.Text true d.Id.toList) (e : GoError)
    (he : (resourcePDNSZoneImport client d w).1.2 = some e) : e.isParseError = false := by
  obtain ⟨m, hm⟩ := text_jsonUnmarshal_ok d.Id h
  unfold resourcePDNSZoneImport at he
  rw [hm] at he
  cases hn : m.get "name" with
  | none =>
    simp only [hn, Option.some.injEq] at he
    subst he
    rfl
  | some zoneName =>
    simp only [hn, Client.callGetZone, Client.callListRecordsInRRSet] at he
    cases hg : (client.GetZone zoneName w.remote).1 with
    | error err =>
      simp only [hg, Option.some.injEq] at he
      subst he
      rfl
    | ok zone =>
      simp only [hg] at he
      cases hl : (client.ListRecordsInRRSet zoneName zoneName "NS"
          (client.GetZone zoneName w.remote).2).1 with
      | error err =>
        simp only [hl, Option.some.injEq] at he
        subst he
        rfl
      | ok rs =>
        simp only [hl] at he
        cases he

/-- C3, as stated, fails for the input `null`, which is not the serialisation of a flat
mapping: `json.Unmarshal` accepts it (the map stays nil), so the importer reports the
missing-field error, which is not a parse error. -/
theorem import_null_is_no_parse_error :
    ¬ Json.Text false (importData "null").Id.toList
    ∧ jsonUnmarshal (importData "null").Id = .ok []
    ∧ resourcePDNSZoneImport (memClient id) (importData "null") { remote := [], calls := [] }
        = (([], some (.errorString "missing zone name in input data")),
            { remote := [], calls := [] })
    ∧ (GoError.errorString "missing zone name in input data").isParseError = false :=
  have hnot : ¬ Json.Text false (importData "null").Id.toList := fun h => by
    rcases text_firstByte false _ h with h1 | ⟨h1, _⟩
    · exact absurd h1 (by decide)
    · cases h1
  ⟨hnot, rfl, rfl, rfl⟩

/-- C3, amended: for every import input that is neither the JSON text of an object all of
whose member values are strings or `null`, nor the JSON text `null`, `json.Unmarshal` reports
an error and `resourcePDNSZoneImport` fails with it, a parse error (a syntax error or a type
mismatch), returns no resource data and makes no client call. -/
theorem import_rejects_malformed_input {σ : Type} (client : Client σ) (d : ResourceData)
    (w : World σ) (h : ¬ Json.Text true d.Id.toList) :
    ∃ e, jsonUnmarshal d.Id = .error e
      ∧ resourcePDNSZoneImport client d w = (([], some e), w)
      ∧ e.isParseError = true := by
  cases hdec : jsonUnmarshal d.Id with
  | ok m => exact absurd (jsonUnmarshal_ok_text _ _ hdec) h
  | error e =>
    refine ⟨e, rfl, ?_, jsonUnmarshal_isParseError _ _ hdec⟩
    unfold resourcePDNSZoneImport
    rw [hdec]

/-- C3, amended, at a bare string, a number and an array, none of which begins with a brace
or with `null`, and at an object cut short before its closing brace: the importer fails with
a parse error, without a call. -/
theorem import_rejects_malformed_input_witness :
    (¬ Json.Text true (importData "\"abc\"").Id.toList
      ∧ ∃ e, jsonUnmarshal (importData "\"abc\"").Id = .error e
        ∧ resourcePDNSZoneImport (memClient id) (importData "\"abc\"")
            { remote := [], calls := [] } = (([], some e), { remote := [], calls := [] })
        ∧ e.isParseError = true)
    ∧ (¬ Json.Text true (importData "12").Id.toList
      ∧ ∃ e, jsonUnmarshal (importData "12").Id = .error e
        ∧ resourcePDNSZoneImport (memClient id) (importData "12")
            { remote := [], calls := [] } = (([], some e), { remote := [], calls := [] })
        ∧ e.isParseError = true)
    ∧ (¬ Json.Text true (importData "[]").Id.toList
      ∧ ∃ e, jsonUnmarshal (importData "[]").Id = .error e
        ∧ resourcePDNSZoneImport (memClient id) (importData "[]")
            { remote := [], calls := [] } = (([], some e), { remote := [], calls := [] })
        ∧ e.isParseError = true)
    ∧ (¬ Json.Text true (importData "\x7b\"name\":\"example.com.\"").Id.toList
      ∧ ∃ e, jsonUnmarshal (importData "\x7b\"name\":\"example.com.\"").Id = .error e
        ∧ resourcePDNSZoneImport (memClient id) (importData "\x7b\"name\":\"example.com.\"")
            { remote := [⟨"example.com.", "example.com.", "Native", []⟩], calls := [] }
          = (([], some e),
              { remote := [⟨"example.com.", "example.com.", "Native", []⟩], calls := [] })
        ∧ e.isParseError = true) :=
  have h1 : ¬ Json.Text true (importData "\"abc\"").Id.toList := fun h => by
    rcases text_firstByte true _ h with h1 | ⟨_, h1⟩
    · exact absurd h1 (by decide)
    · exact absurd h1 (by decide)
  have h2 : ¬ Json.Text true (importData "12").Id.toList := fun h => by
    rcases text_firstByte true _ h with h1 | ⟨_, h1⟩
    · exact absurd h1 (by decide)
    · exact absurd h1 (by decide)
  have h3 : ¬ Json.Text true (importData "[]").Id.toList := fun h => by
    rcases text_firstByte true _ h with h1 | ⟨_, h1⟩
    · exact absurd h1 (by decide)
    · exact absurd h1 (by decide)
  have h4 : ¬ Json.Text true (importData "\x7b\"name\":\"example.com.\"").Id.toList :=
    not_text_of_error _ (.jsonSyntaxError "unexpected end of JSON input") rfl
  ⟨⟨h1, import_rejects_malformed_input (memClient id) (importData "\"abc\"")
      { remote := [], calls := [] } h1⟩,
    ⟨h2, import_rejects_malformed_input (memClient id) (importData "12")
      { remote := [], calls := [] } h2⟩,
    ⟨h3, import_rejects_malformed_input (memClient id) (importData "[]")
      { remote := [], calls := [] } h3⟩,
    ⟨h4, import_rejects_malformed_input (memClient id)
      (importData "\x7b\"name\":\"example.com.\"")
      { remote := [⟨"example.com.", "example.com.", "Native", []⟩], calls := [] } h4⟩⟩

/-- C4: `resourcePDNSZoneImport` returns the error `missing zone name in input data` exactly
when the input decodes, without error, to a mapping that has no `name` key; it then returns no
resource data and makes no client call. That error is not a parse error, and `json.Unmarshal`
never returns it. -/
theorem import_missing_name {σ : Type} (client : Client σ) (d : ResourceData) (w : World σ) :
    ((resourcePDNSZoneImport client d w).1.2
        = some (.errorString "missing zone name in input data")
      ↔ ∃ m, jsonUnmarshal d.Id = .ok m ∧ m.get "name" = none)
    ∧ (∀ m, jsonUnmarshal d.Id = .ok m → m.get "name" = none →
        resourcePDNSZoneImport client d w
          = (([], some (.errorString "missing zone name in input data")), w))
    ∧ (GoError.errorString "missing zone name in input data").isParseError = false
    ∧ (∀ data, jsonUnmarshal data ≠ .error (.errorString "missing zone name in input data")) := by
  have hfwd : ∀ m, jsonUnmarshal d.Id = .ok m → m.get "name" = none →
      resourcePDNSZoneImport client d w
        = (([], some (.errorString "missing zone name in input data")), w) := by
    intro m hm hn
    unfold resourcePDNSZoneImport
    rw [hm]
    simp only [hn]
  have hnever : ∀ data,
      jsonUnmarshal data ≠ .error (.errorString "missing zone name in input data") := by
    intro data h
    have := jsonUnmarshal_isParseError _ _ h
    cases this
  refine ⟨⟨?_, ?_⟩, hfwd, rfl, hnever⟩
  · intro h
    unfold resourcePDNSZoneImport at h
    cases hdec : jsonUnmarshal d.Id with
    | error e =>
      rw [hdec] at h
      simp only [Option.some.injEq] at h
      exact absurd (h ▸ hdec) (hnever _)
    | ok m =>
      rw [hdec] at h
      cases hn : m.get "name" with
      | none => exact ⟨m, rfl, hn⟩
      | some zoneName =>
        exfalso
        simp only [hn, Client.callGetZone, Client.callListRecordsInRRSet] at h
        cases hg : (client.GetZone zoneName w.remote).1 with
        | error err =>
          simp only [hg, Option.some.injEq, GoError.errorString.injEq] at h
          rw [String.append_assoc, String.append_assoc] at h
          exact fetch_text_ne_missing _ h
        | ok zone =>
          simp only [hg] at h
          cases hl : (client.ListRecordsInRRSet zoneName zoneName "NS"
              (client.GetZone zoneName w.remote).2).1 with
          | error err =>
            simp only [hl, Option.some.injEq, GoError.errorString.injEq] at h
            rw [String.append_assoc, String.append_assoc] at h
            exact fetch_text_ne_missing _ h
          | ok rs =>
            simp only [hl] at h
            cases h
  · rintro ⟨m, hm, hn⟩
    rw [hfwd m hm hn]

/-- C4 at the input `{}`: it decodes to the empty mapping and the importer fails with the
missing-field error, without a call. -/
theorem import_missing_name_witness :
    jsonUnmarshal (importData "\x7b\x7d").Id = .ok []
    ∧ Json.GoMap.get [] "name" = none
    ∧ resourcePDNSZoneImport (memClient id) (importData "\x7b\x7d")
        { remote := [⟨"example.com.", "example.com.", "Native", []⟩], calls := [] }
      = (([], some (.errorString "missing zone name in input data")),
          { remote := [⟨"example.com.", "example.com.", "Native", []⟩], calls := [] }) :=
  ⟨rfl, rfl,
    (import_missing_name (memClient id) (importData "\x7b\x7d")
      { remote := [⟨"example.com.", "example.com.", "Native", []⟩], calls := [] }).2.1
      [] rfl rfl⟩

/-! ## Sequences of operations -/

/-- In the in-memory remote a created zone is found under its name, with its name and
kind. -/
theorem memClient_create_get (mkID : String → String) (z : ZoneInfo) (s : List ZoneInfo)
    (z' : ZoneInfo) (s' : List ZoneInfo)
    (h : (memClient mkID).CreateZone z s = (.ok z', s')) :
    ∃ g s2, (memClient mkID).GetZone z.Name s' = (.ok g, s2) ∧ g.Name = z.Name
      ∧ g.Kind = z.Kind := by
  simp only [memClient] at h
  split at h
  · cases h
  · simp only [Prod.mk.injEq, Except.ok.injEq] at h
    obtain ⟨_, hs⟩ := h
    subst hs
    refine ⟨{ z with ID := mkID z.Name }, { z with ID := mkID z.Name } :: s, ?_, rfl, rfl⟩
    simp [memClient]

/-- The in-memory remote that uses zone names as identifiers never assigns an empty one. -/
theorem memClient_id_nonempty (z : ZoneInfo) (s : List ZoneInfo) (z' : ZoneInfo)
    (s' : List ZoneInfo) (h : (memClient id).CreateZone z s = (.ok z', s')) : z'.ID ≠ "" := by
  simp only [memClient] at h
  split at h
  · cases h
  · next hne =>
    simp only [Prod.mk.injEq, Except.ok.injEq] at h
    obtain ⟨hz, _⟩ := h
    subst hz
    exact hne

/-- The in-memory remote deletes by identifier and reports existence by name. -/
theorem memClient_keyed (mkID : String → String) : KeyedRemote (memClient mkID) id := by
  refine ⟨?_, fun _ _ => rfl⟩
  intro k s _ z hz
  simp only [memClient, id, List.mem_filter] at hz
  exact ⟨hz.1, by simpa using hz.2⟩

/-- The lenient remote deletes and reports existence as the in-memory remote does. -/
theorem lenientClient_keyed : KeyedRemote lenientClient id :=
  ⟨(memClient_keyed id).delete_removes, (memClient_keyed id).exists_reports⟩

/-- C8: in a remote system in which a successful `CreateZone z` makes `GetZone z.Name` return
a zone with the `Name` and `Kind` of `z`, for a configuration the remote accepts (the
`CreateZone` call succeeds), `resourcePDNSZoneCreate` followed by `resourcePDNSZoneRead` on the
resulting resource data succeeds and gives a `name` and a `kind` equal to the configured ones,
with the `nameservers` still the configured ones. -/
theorem create_then_read {σ : Type} (client : Client σ) (d : ResourceData) (w : World σ)
    (created : ZoneInfo) (s1 : σ)
    (hremote : ∀ z s z' s', client.CreateZone z s = (.ok z', s') →
      ∃ g s2, client.GetZone z.Name s' = (.ok g, s2) ∧ g.Name = z.Name ∧ g.Kind = z.Kind)
    (hcreate : client.CreateZone ⟨"", d.GetName, d.GetKind, d.GetNameservers.List⟩ w.remote
      = (.ok created, s1)) :
    (resourcePDNSZoneCreate client d w).1 = none
    ∧ (resourcePDNSZoneRead client (resourcePDNSZoneCreate client d w).2.1
        (resourcePDNSZoneCreate client d w).2.2).1 = none
    ∧ (resourcePDNSZoneRead client (resourcePDNSZoneCreate client d w).2.1
        (resourcePDNSZoneCreate client d w).2.2).2.1.GetName = d.GetName
    ∧ (resourcePDNSZoneRead client (resourcePDNSZoneCreate client d w).2.1
        (resourcePDNSZoneCreate client d w).2.2).2.1.GetKind = d.GetKind
    ∧ (resourcePDNSZoneRead client (resourcePDNSZoneCreate client d w).2.1
        (resourcePDNSZoneCreate client d w).2.2).2.1.GetNameservers = d.GetNameservers := by
  obtain ⟨g, s2, hget, hgn, hgk⟩ := hremote _ _ _ _ hcreate
  have hloop : d.GetNameservers.List.foldl (fun acc nameserver => acc ++ [nameserver]) []
      = d.GetNameservers.List := by
    have := foldl_append_eq_map (fun x : String => x) d.GetNameservers.List []
    simpa using this
  have hc : resourcePDNSZoneCreate client d w =
      (none, d.SetId created.ID,
        { remote := s1,
          calls := w.calls ++
            [Call.CreateZone ⟨"", d.GetName, d.GetKind, d.GetNameservers.List⟩] }) := by
    simp only [resourcePDNSZoneCreate, Client.callCreateZone, hloop, hcreate]
  have hn : (d.SetId created.ID).GetName = d.GetName := rfl
  have hr : resourcePDNSZoneRead client (d.SetId created.ID)
      { remote := s1,
        calls := w.calls ++
          [Call.CreateZone ⟨"", d.GetName, d.GetKind, d.GetNameservers.List⟩] } =
      (none, ((d.SetId created.ID).SetName g.Name).SetKind g.Kind,
        { remote := s2,
          calls := w.calls ++
            [Call.CreateZone ⟨"", d.GetName, d.GetKind, d.GetNameservers.List⟩] ++
            [Call.GetZone d.GetName] }) := by
    simp only at hget
    simp only [resourcePDNSZoneRead, Client.callGetZone, hn, hget]
  have hr1 : (resourcePDNSZoneRead client (resourcePDNSZoneCreate client d w).2.1
      (resourcePDNSZoneCreate client d w).2.2) =
      (none, ((d.SetId created.ID).SetName g.Name).SetKind g.Kind,
        { remote := s2,
          calls := w.calls ++
            [Call.CreateZone ⟨"", d.GetName, d.GetKind, d.GetNameservers.List⟩] ++
            [Call.GetZone d.GetName] }) := by
    rw [hc]
    exact hr
  rw [hr1, hc]
  exact ⟨rfl, rfl, hgn, hgk, rfl⟩

/-- C8 at the configuration `example.com.` of kind `Native` with one nameserver, on an empty
in-memory remote. -/
theorem create_then_read_witness :
    (resourcePDNSZoneCreate (memClient id)
        (configData "example.com." "Native" ["ns1.example.com."])
        { remote := [], calls := [] }).1 = none
    ∧ (resourcePDNSZoneRead (memClient id)
        (resourcePDNSZoneCreate (memClient id)
          (configData "example.com." "Native" ["ns1.example.com."])
          { remote := [], calls := [] }).2.1
        (resourcePDNSZoneCreate (memClient id)
          (configData "example.com." "Native" ["ns1.example.com."])
          { remote := [], calls := [] }).2.2).1 = none
    ∧ (resourcePDNSZoneRead (memClient id)
        (resourcePDNSZoneCreate (memClient id)
          (configData "example.com." "Native" ["ns1.example.com."])
          { remote := [], calls := [] }).2.1
        (resourcePDNSZoneCreate (memClient id)
          (configData "example.com." "Native" ["ns1.example.com."])
          { remote := [], calls := [] }).2.2).2.1.GetName = "example.com."
    ∧ (resourcePDNSZoneRead (memClient id)
        (resourcePDNSZoneCreate (memClient id)
          (configData "example.com." "Native" ["ns1.example.com."])
          { remote := [], calls := [] }).2.1
        (resourcePDNSZoneCreate (memClient id)
          (configData "example.com." "Native" ["ns1.example.com."])
          { remote := [], calls := [] }).2.2).2.1.GetKind = "Native"
    ∧ (resourcePDNSZoneRead (memClient id)
        (resourcePDNSZoneCreate (memClient id)
          (configData "example.com." "Native" ["ns1.example.com."])
          { remote := [], calls := [] }).2.1
        (resourcePDNSZoneCreate (memClient id)
          (configData "example.com." "Native" ["ns1.example.com."])
          { remote := [], calls := [] }).2.2).2.1.GetNameservers
        = SchemaSet.ofList ["ns1.example.com."] :=
  create_then_read (memClient id) (configData "example.com." "Native" ["ns1.example.com."])
    { remote := [], calls := [] } _ _ (memClient_create_get id) rfl

/-- C9, as stated, fails for a state managed through `Import` whose identity is not the key
under which the remote deletes the zone. The remote holds the zone `example.com.` under that
name as its identifier, removes on `DeleteZone` the zone with the given identifier, reports
existence by name, and accepts on lookup a name without the trailing dot. Importing
`{"name":"example.com"}` finds the zone and sets the identity to `example.com` and `name` to
`example.com.`. `Delete` then calls `DeleteZone` keyed by that identity, which succeeds and
leaves no zone keyed `example.com`, and the following `Exists` on the same state, which
queries by `name`, reports `(true, nil)`. -/
theorem exists_after_delete_by_other_key :
    KeyedRemote lenientClient id
    ∧ ∃ d1,
      (resourcePDNSZoneImport lenientClient (importData "\x7b\"name\":\"example.com\"\x7d")
          { remote := [⟨"example.com.", "example.com.", "Native", []⟩], calls := [] }).1
        = ([d1], none)
      ∧ d1.Id = "example.com" ∧ d1.GetName = "example.com."
      ∧ resourcePDNSZoneDelete lenientClient d1
          { remote := [⟨"example.com.", "example.com.", "Native", []⟩], calls := [] }
        = (none, d1,
            { remote := [⟨"example.com.", "example.com.", "Native", []⟩],
              calls := [Call.DeleteZone "example.com"] })
      ∧ (lenientClient.ZoneExists "example.com"
          [⟨"example.com.", "example.com.", "Native", []⟩]).1 = .ok false
      ∧ (resourcePDNSZoneExists lenientClient d1
          { remote := [⟨"example.com.", "example.com.", "Native", []⟩],
            calls := [Call.DeleteZone "example.com"] }).1 = (true, none) :=
  ⟨lenientClient_keyed, _, rfl, rfl, rfl, rfl, rfl, rfl⟩

/-- C9, amended: in a remote system in which a successful `DeleteZone` removes the zone with
the given identifier and `ZoneExists` reports, without error, whether a zone of the given name
is held, for a state whose identity is the identifier of every remote zone that bears the
state's `name`, `resourcePDNSZoneDelete` calls `client.DeleteZone` once, keyed by the identity,
leaves the state as it is, and returns nil when the call succeeded and the client's error,
wrapped, when it failed; when the call succeeded, a following `resourcePDNSZoneExists` on the
same state queries by the state's `name` and returns `(false, nil)`. -/
theorem delete_then_exists {σ : Type} (client : Client σ) (zones : σ → List ZoneInfo)
    (d : ResourceData) (w : World σ) (hremote : KeyedRemote client zones)
    (hid : ∀ z ∈ zones w.remote, z.Name = d.GetName → z.ID = d.Id) :
    (resourcePDNSZoneDelete client d w).1 =
      (match (client.DeleteZone d.Id w.remote).1 with
        | none => none
        | some err => some (.errorString ("Error deleting PowerDNS Zone: " ++ err.Error)))
    ∧ (resourcePDNSZoneDelete client d w).2.1 = d
    ∧ (resourcePDNSZoneDelete client d w).2.2 =
        { remote := (client.DeleteZone d.Id w.remote).2,
          calls := w.calls ++ [Call.DeleteZone d.Id] }
    ∧ ((client.DeleteZone d.Id w.remote).1 = none →
        (resourcePDNSZoneDelete client d w).1 = none
        ∧ (resourcePDNSZoneExists client (resourcePDNSZoneDelete client d w).2.1
            (resourcePDNSZoneDelete client d w).2.2).1 = (false, none)
        ∧ (resourcePDNSZoneExists client (resourcePDNSZoneDelete client d w).2.1
            (resourcePDNSZoneDelete client d w).2.2).2.2.calls
          = w.calls ++ [Call.DeleteZone d.Id] ++ [Call.ZoneExists d.GetName]) := by
  have h1 : (resourcePDNSZoneDelete client d w).1 =
      (match (client.DeleteZone d.Id w.remote).1 with
        | none => none
        | some err => some (.errorString ("Error deleting PowerDNS Zone: " ++ err.Error))) := by
    unfold resourcePDNSZoneDelete Client.callDeleteZone
    cases h : (client.DeleteZone d.Id w.remote).1 <;> simp only [h]
  have h2 : (resourcePDNSZoneDelete client d w).2.1 = d := by
    unfold resourcePDNSZoneDelete Client.callDeleteZone
    cases h : (client.DeleteZone d.Id w.remote).1 <;> simp only [h]
  have h3 : (resourcePDNSZoneDelete client d w).2.2 =
      { remote := (client.DeleteZone d.Id w.remote).2,
        calls := w.calls ++ [Call.DeleteZone d.Id] } := by
    unfold resourcePDNSZoneDelete Client.callDeleteZone
    cases h : (client.DeleteZone d.Id w.remote).1 <;> simp only [h]
  refine ⟨h1, h2, h3, ?_⟩
  intro hdel
  have hgone : (zones (client.DeleteZone d.Id w.remote).2).any (fun z => z.Name == d.GetName)
      = false := by
    rw [List.any_eq_false]
    intro z hz hname
    have hkept := hremote.delete_removes _ _ hdel z hz
    have hn : z.Name = d.GetName := by simpa using hname
    exact hkept.2 (hid z hkept.1 hn)
  have hex := hremote.exists_reports d.GetName (client.DeleteZone d.Id w.remote).2
  rw [hgone] at hex
  rw [h2, h3]
  refine ⟨?_, ?_, ?_⟩
  · rw [h1, hdel]
  · simp only [resourcePDNSZoneExists, Client.callZoneExists, hex]
  · simp only [resourcePDNSZoneExists, Client.callZoneExists, hex]

/-- C9, amended, on the in-memory remote that uses zone names as identifiers: the zone
`example.com.` is deleted with one call keyed by the identity and then reported absent. -/
theorem delete_then_exists_witness :
    (∀ z ∈ id [(⟨"example.com.", "example.com.", "Native", []⟩ : ZoneInfo)],
        z.Name = ((configData "example.com." "Native" []).SetId "example.com.").GetName →
        z.ID = ((configData "example.com." "Native" []).SetId "example.com.").Id)
    ∧ ((memClient id).DeleteZone "example.com."
        [⟨"example.com.", "example.com.", "Native", []⟩]).1 = none
    ∧ resourcePDNSZoneDelete (memClient id)
        ((configData "example.com." "Native" []).SetId "example.com.")
        { remote := [⟨"example.com.", "example.com.", "Native", []⟩], calls := [] }
      = (none, (configData "example.com." "Native" []).SetId "example.com.",
          { remote := [], calls := [Call.DeleteZone "example.com."] })
    ∧ (resourcePDNSZoneExists (memClient id)
        (resourcePDNSZoneDelete (memClient id)
          ((configData "example.com." "Native" []).SetId "example.com.")
          { remote := [⟨"example.com.", "example.com.", "Native", []⟩], calls := [] }).2.1
        (resourcePDNSZoneDelete (memClient id)
          ((configData "example.com." "Native" []).SetId "example.com.")
          { remote := [⟨"example.com.", "example.com.", "Native", []⟩], calls := [] }).2.2).1
      = (false, none)
    ∧ (resourcePDNSZoneExists (memClient id)
        (resourcePDNSZoneDelete (memClient id)
          ((configData "example.com." "Native" []).SetId "example.com.")
          { remote := [⟨"example.com.", "example.com.", "Native", []⟩], calls := [] }).2.1
        (resourcePDNSZoneDelete (memClient id)
          ((configData "example.com." "Native" []).SetId "example.com.")
          { remote := [⟨"example.com.", "example.com.", "Native", []⟩], calls := [] }).2.2
        ).2.2.calls
      = [] ++ [Call.DeleteZone "example.com."] ++ [Call.ZoneExists "example.com."] :=
  have hid : ∀ z ∈ id [(⟨"example.com.", "example.com.", "Native", []⟩ : ZoneInfo)],
      z.Name = ((configData "example.com." "Native" []).SetId "example.com.").GetName →
      z.ID = ((configData "example.com." "Native" []).SetId "example.com.").Id := by decide
  have hthm := delete_then_exists (memClient id) id
    ((configData "example.com." "Native" []).SetId "example.com.")
    { remote := [⟨"example.com.", "example.com.", "Native", []⟩], calls := [] }
    (memClient_keyed id) hid
  ⟨hid, rfl, rfl, (hthm.2.2.2 rfl).2.1, (hthm.2.2.2 rfl).2.2⟩

/-- C10, as stated, fails when the remote answers `CreateZone` with an empty `ID`: `Create`
succeeds and the identity of the managed resource is the empty string. -/
theorem create_can_leave_identity_empty :
    (resourcePDNSZoneCreate (memClient (fun _ => ""))
        (configData "example.com." "Native" ["ns1.example.com."])
        { remote := [], calls := [] }).1 = none
    ∧ (resourcePDNSZoneCreate (memClient (fun _ => ""))
        (configData "example.com." "Native" ["ns1.example.com."])
        { remote := [], calls := [] }).2.1.Id = ""
    ∧ Lifecycle (memClient (fun _ => "")) (fun _ => True)
        (resourcePDNSZoneCreate (memClient (fun _ => ""))
          (configData "example.com." "Native" ["ns1.example.com."])
          { remote := [], calls := [] }).2.1 :=
  ⟨rfl, rfl, Lifecycle.created _ _ rfl⟩

/-- `Read`, `Update`, `Delete` and `Exists` leave the identity as it is. -/
theorem identity_kept {σ : Type} (client : Client σ) (d : ResourceData) (w : World σ) :
    (resourcePDNSZoneRead client d w).2.1.Id = d.Id
    ∧ (resourcePDNSZoneUpdate client d w).2.1.Id = d.Id
    ∧ (resourcePDNSZoneDelete client d w).2.1.Id = d.Id
    ∧ (resourcePDNSZoneExists client d w).2.1.Id = d.Id := by
  refine ⟨?_, ?_, ?_, ?_⟩
  · unfold resourcePDNSZoneRead Client.callGetZone
    cases h : (client.GetZone d.GetName w.remote).1 <;> simp only [h]
    rfl
  · unfold resourcePDNSZoneUpdate Client.callUpdateZone
    cases h : d.HasChangeKind <;> simp
  · unfold resourcePDNSZoneDelete Client.callDeleteZone
    cases h : (client.DeleteZone d.Id w.remote).1 <;> simp only [h]
  · unfold resourcePDNSZoneExists Client.callZoneExists
    cases h : (client.ZoneExists d.GetName w.remote).1 <;> simp only [h]

/-- C10, amended: `Read`, `Update`, `Delete` and `Exists` never change the identity; with a
client whose successful `CreateZone` always returns a non-empty `ID`, and import inputs whose
`name` is never the empty string, the identity is non-empty in every state reachable through
successful lifecycle operations. -/
theorem identity_nonempty {σ : Type} (client : Client σ) (inputs : String → Prop)
    (d : ResourceData)
    (hID : ∀ z s z' s', client.CreateZone z s = (.ok z', s') → z'.ID ≠ "")
    (hin : ∀ i m, inputs i → jsonUnmarshal i = .ok m → m.get "name" ≠ some "")
    (h : Lifecycle client inputs d) :
    d.Id ≠ ""
    ∧ ∀ w : World σ,
      (resourcePDNSZoneRead client d w).2.1.Id = d.Id
      ∧ (resourcePDNSZoneUpdate client d w).2.1.Id = d.Id
      ∧ (resourcePDNSZoneDelete client d w).2.1.Id = d.Id
      ∧ (resourcePDNSZoneExists client d w).2.1.Id = d.Id := by
  refine ⟨?_, fun w => identity_kept client d w⟩
  induction h with
  | created d0 w0 hok =>
    unfold resourcePDNSZoneCreate Client.callCreateZone at hok ⊢
    cases hc : client.CreateZone
        ⟨"", d0.GetName, d0.GetKind,
          d0.GetNameservers.List.foldl (fun acc nameserver => acc ++ [nameserver]) []⟩
        w0.remote with
    | mk r s' =>
      cases r with
      | error e =>
        simp only [hc] at hok
        cases hok
      | ok z' =>
        simp only [hc]
        exact hID _ _ _ _ hc
  | imported d0 w0 d1 hi hok =>
    unfold resourcePDNSZoneImport at hok
    cases hdec : jsonUnmarshal d0.Id with
    | error e =>
      rw [hdec] at hok
      cases hok
    | ok m =>
      rw [hdec] at hok
      cases hn : m.get "name" with
      | none =>
        simp only [hn] at hok
        cases hok
      | some zoneName =>
        simp only [hn, Client.callGetZone, Client.callListRecordsInRRSet] at hok
        cases hg : (client.GetZone zoneName w0.remote).1 with
        | error err =>
          simp only [hg] at hok
          cases hok
        | ok zone =>
          simp only [hg] at hok
          cases hl : (client.ListRecordsInRRSet zoneName zoneName "NS"
              (client.GetZone zoneName w0.remote).2).1 with
          | error err =>
            simp only [hl] at hok
            cases hok
          | ok rs =>
            simp only [hl, Prod.mk.injEq, List.cons.injEq, and_true] at hok
            subst hok
            intro hempty
            apply hin d0.Id m hi hdec
            rw [hn]
            exact congrArg some hempty
  | read d0 w0 _ _ ih => rw [(identity_kept client d0 w0).1]; exact ih
  | updated d0 w0 _ _ ih => rw [(identity_kept client d0 w0).2.1]; exact ih
  | deleted d0 w0 _ _ ih => rw [(identity_kept client d0 w0).2.2.1]; exact ih
  | checked d0 w0 _ _ ih => rw [(identity_kept client d0 w0).2.2.2]; exact ih

/-- C10, amended, on the in-memory remote that uses zone names as identifiers: after the
zone `example.com.` has been created, the identity is not empty. -/
theorem identity_nonempty_witness :
    Lifecycle (memClient id) (fun i => i = "\x7b\"name\":\"example.com.\"\x7d")
      (resourcePDNSZoneCreate (memClient id)
        (configData "example.com." "Native" ["ns1.example.com."])
        { remote := [], calls := [] }).2.1
    ∧ (resourcePDNSZoneCreate (memClient id)
        (configData "example.com." "Native" ["ns1.example.com."])
        { remote := [], calls := [] }).2.1.Id ≠ "" :=
  ⟨Lifecycle.created (configData "example.com." "Native" ["ns1.example.com."])
      { remote := [], calls := [] } rfl,
    (identity_nonempty (memClient id) (fun i => i = "\x7b\"name\":\"example.com.\"\x7d") _
      memClient_id_nonempty
      (by
        intro i m hi hdec
        subst hi
        have hm : jsonUnmarshal "\x7b\"name\":\"example.com.\"\x7d"
            = .ok [("name", "example.com.")] := rfl
        rw [hm] at hdec
        cases hdec
        decide)
      (Lifecycle.created (configData "example.com." "Native" ["ns1.example.com."])
        { remote := [], calls := [] } rfl)).1⟩

end PowerDNS
